import Mathlib

/-!
Verification model of the fancytiles layout core (`src/unnamed/part_001`,
the pure part of `src/io-utils.js`, and the default layouts of
`src/application.js`).

Modelling conventions:
* JS numbers are modelled as rationals (`ℚ`); `Math.round` is `⌊q + 1/2⌋`,
  which is exact on the values exercised here.
* A node's `percentage` field is modelled by the inductive `Perc`:
  `fin q` for an ordinary number, `pinf`/`ninf` for the two infinity
  sentinels, and `undef` for JavaScript `undefined` (the percentage of a
  node deserialized from JSON with no `percentage` key).  Every numeric
  comparison involving `undef` is false, as in JS.
* A `LayoutNode` is a record of per-node fields (`NodeData`) plus the list
  of children.  The mutable `parent` back-reference of the JS class is
  implicit in the tree shape; where an operation locates a node object and
  then mutates it, the object's identity is modelled by its pre-order path
  (`List ℕ` of child indices).  A separate heap model (`Store`) is used
  for the claims that are literally about the `parent` pointers.
* `delete` compares nodes with `indexOf`, i.e. JS reference equality; the
  pure model uses structural equality, which coincides with it whenever the
  tree has no duplicate structurally-equal nodes (true in every concrete
  scenario below).
-/

set_option autoImplicit false

-- Batteries marks the rational arithmetic operators irreducible; restore
-- reducibility within this file so that concrete scenarios evaluate.
attribute [local semireducible] Rat.add Rat.mul Rat.inv Rat.sub

namespace FancyTiles

/-- Axis constant `AxisX = 0` from the source. -/
def AxisX : ℕ := 0

/-- Axis constant `AxisY = 1` from the source. -/
def AxisY : ℕ := 1

/-- The value stored in a node's `percentage` field: an ordinary number,
one of the two infinity sentinels, or JavaScript `undefined`. -/
inductive Perc where
  | fin (q : ℚ)
  | pinf
  | ninf
  | undef
deriving DecidableEq, Repr

namespace Perc

/-- JS `this.percentage <= -0` (`-0 = 0` for `<=`); comparisons with
`±Infinity` follow IEEE and comparisons with `undefined` are false. -/
def isRowB : Perc → Bool
  | fin q => q ≤ 0
  | pinf => false
  | ninf => true
  | undef => false

/-- JS `this.percentage >= 0`. -/
def isColumnB : Perc → Bool
  | fin q => q ≥ 0
  | pinf => true
  | ninf => false
  | undef => false

/-- JS `Math.abs(a) > Math.abs(b)` on percentages: `Math.abs(±Infinity)`
is `Infinity`, and any comparison with `NaN` (`Math.abs(undefined)`) is
false. -/
def absGT : Perc → Perc → Bool
  | _, undef => false
  | undef, _ => false
  | pinf, pinf => false
  | pinf, ninf => false
  | ninf, pinf => false
  | ninf, ninf => false
  | pinf, fin _ => true
  | ninf, fin _ => true
  | fin _, pinf => false
  | fin _, ninf => false
  | fin a, fin b => |a| > |b|

/-- JS multiplication of a percentage by a finite factor (the resize
wiggle `percentage * 0.95`): infinities absorb; `undefined * x` is `NaN`,
which behaves exactly like `undef` in every comparison the code makes. -/
def scale (f : ℚ) : Perc → Perc
  | fin q => fin (q * f)
  | pinf => pinf
  | ninf => ninf
  | undef => undef

end Perc

/-- The sentinel percentage of the last child of a column partition. -/
def LastNodeXPercentage : Perc := Perc.pinf

/-- The sentinel percentage of the last child of a row partition. -/
def LastNodeYPercentage : Perc := Perc.ninf

/-- Wire stand-in for `+Infinity`. -/
def LastNodeXPercentageJson : ℚ := 99999

/-- Wire stand-in for `-Infinity`. -/
def LastNodeYPercentageJson : ℚ := -99999

/-- A rectangle `{x, y, width, height}`. -/
structure Rect where
  x : ℚ
  y : ℚ
  width : ℚ
  height : ℚ
deriving DecidableEq, Repr

/-- The zero rectangle, the initializer of the `rect` field. -/
def Rect.zero : Rect := ⟨0, 0, 0, 0⟩

/-- Point-in-rectangle test with inclusive edges, as written in
`findNodeAtPosition` and `findDividerAtPosition`. -/
def Rect.containsB (r : Rect) (x y : ℚ) : Bool :=
  decide (x ≥ r.x ∧ x ≤ r.x + r.width ∧ y ≥ r.y ∧ y ≤ r.y + r.height)

/-- The per-node fields of a `LayoutNode`, in declaration order of the JS
class (minus `parent` and `children`). -/
structure NodeData where
  percentage : Perc
  rect : Rect
  isResizing : Bool
  isPreview : Bool
  isHighlighted : Bool
  originalRect : Option Rect
  isSnappingDestination : Bool
  margin : ℚ
deriving DecidableEq, Repr

/-- The field initializers of the JS class. -/
def NodeData.init (p : Perc) : NodeData :=
  { percentage := p
    rect := Rect.zero
    isResizing := false
    isPreview := false
    isHighlighted := false
    originalRect := none
    isSnappingDestination := false
    margin := 0 }

/-- A node of the layout tree. -/
inductive LayoutNode where
  | mk (data : NodeData) (children : List LayoutNode)
deriving Repr

namespace LayoutNode

def data : LayoutNode → NodeData
  | mk d _ => d

def children : LayoutNode → List LayoutNode
  | mk _ cs => cs

def percentage (n : LayoutNode) : Perc := n.data.percentage

def rect (n : LayoutNode) : Rect := n.data.rect

def margin (n : LayoutNode) : ℚ := n.data.margin

@[simp] theorem data_mk (d : NodeData) (cs : List LayoutNode) : (mk d cs).data = d := rfl

@[simp] theorem children_mk (d : NodeData) (cs : List LayoutNode) :
    (mk d cs).children = cs := rfl

mutual

/-- Structural equality test, the model's stand-in for JS reference
identity in `indexOf`-style searches. -/
def eqb : LayoutNode → LayoutNode → Bool
  | mk d cs, mk d' cs' => d == d' && eqbList cs cs'

def eqbList : List LayoutNode → List LayoutNode → Bool
  | [], [] => true
  | x :: xs, y :: ys => eqb x y && eqbList xs ys
  | _, _ => false

end

mutual

theorem eqb_iff : ∀ a b : LayoutNode, eqb a b = true ↔ a = b
  | mk d cs, mk d' cs' => by
    simp only [eqb, Bool.and_eq_true, beq_iff_eq, mk.injEq]
    exact and_congr Iff.rfl (eqbList_iff cs cs')

theorem eqbList_iff : ∀ xs ys : List LayoutNode, eqbList xs ys = true ↔ xs = ys
  | [], [] => by simp [eqbList]
  | [], _ :: _ => by simp [eqbList]
  | _ :: _, [] => by simp [eqbList]
  | x :: xs, y :: ys => by
    simp only [eqbList, Bool.and_eq_true, List.cons.injEq]
    exact and_congr (eqb_iff x y) (eqbList_iff xs ys)

end

instance : DecidableEq LayoutNode := fun a b => decidable_of_iff _ (eqb_iff a b)

/-- JS `isLeaf()`: `children.length === 0`. -/
def isLeaf (n : LayoutNode) : Bool := n.children.length = 0

/-- JS `isRow()`. -/
def isRow (n : LayoutNode) : Bool := n.percentage.isRowB

/-- JS `isColumn()`. -/
def isColumn (n : LayoutNode) : Bool := n.percentage.isColumnB

/-- JS `axis()`: `this.isColumn() ? AxisX : AxisY`. -/
def axis (n : LayoutNode) : ℕ := if n.isColumn then AxisX else AxisY

/-- JS `snapRect()`: the rectangle inset by the margin on all sides. -/
def snapRect (n : LayoutNode) : Rect :=
  { x := n.rect.x + n.margin
    y := n.rect.y + n.margin
    width := n.rect.width - n.margin * 2
    height := n.rect.height - n.margin * 2 }

/-- The per-child range test of `getIntegrityError`:
`c.percentage === null || c.percentage < -1 || c.percentage > 1`
(no comparison holds for `undefined`, so it passes the test). -/
def percBad : Perc → Bool
  | Perc.fin q => decide (q < -1 ∨ q > 1)
  | Perc.pinf => true
  | Perc.ninf => true
  | Perc.undef => false

/-- The last-child test of `getIntegrityError`:
`![+Infinity, -Infinity].includes(c.percentage)`. -/
def notSentinel : Perc → Bool
  | Perc.pinf => false
  | Perc.ninf => false
  | _ => true

mutual

/-- JS `getIntegrityError()`: a description of the first violated
structural invariant, or `none`. -/
def getIntegrityError : LayoutNode → Option String
  | mk _ cs =>
    if cs.length = 1 then some "broken invariant: children has 1 element"
    else if cs.dropLast.any (fun c => percBad c.percentage) then
      some "broken invariant: percentage not in [-1,1]"
    else if (cs.getLast?.elim false fun c => notSentinel c.percentage) then
      some "broken invariant: last child invalid percentage"
    else integrityErrorList cs

def integrityErrorList : List LayoutNode → Option String
  | [] => none
  | c :: rest => (getIntegrityError c).orElse fun _ => integrityErrorList rest

end

/-- JS `Math.round`: `⌊q + 1/2⌋` (ties toward positive infinity). -/
def jsRound (q : ℚ) : ℤ := ⌊q + 1/2⌋

/-- The divider-edge computation
`Math.round(Math.abs(screenLength * percentage) / 10) * 10` for a finite
percentage, as a rational.  A sentinel percentage at a non-last child
already violates the integrity invariant, but an `undefined` percentage
passes it (every JS range comparison on `undefined` is false) and makes
the JS expression produce `NaN`; the rational model returns the
arbitrary value `0` in that arm, so it is faithful only when every
consumed percentage is finite.  Theorems about the computed rectangles
therefore carry an explicit finiteness hypothesis (`finiteDropLastB`),
and `calcNodeJ` below redoes the computation over JS numbers with
faithful `NaN`/infinity propagation: the two agree exactly under that
hypothesis (`calcNodeJ_agree`), and an `undefined` percentage makes the
source compute `NaN` rectangles (the C2 counterexample). -/
def edgeOffset (len : ℚ) : Perc → ℚ
  | Perc.fin q => (jsRound (|len * q| / 10) : ℚ) * 10
  | _ => 0

mutual

/-- JS `calculateRects(x, y, width, height, display)` (recursive case) and
the loop over the children.  `calcChildren` carries `previousPosOnAxis` as
`px`/`py` and receives the parent rectangle `(x, y, w, h)` and the
`display` rectangle. -/
def calcNode : LayoutNode → ℚ → ℚ → ℚ → ℚ → Option Rect → LayoutNode
  | mk d cs, x, y, w, h, display =>
    let r : Rect := ⟨x, y, w, h⟩
    if cs.length = 0 then mk { d with rect := r } cs
    else
      let disp := display.getD r
      mk { d with rect := r } (calcChildren cs x y x y w h disp)

def calcChildren : List LayoutNode → ℚ → ℚ → ℚ → ℚ → ℚ → ℚ → Rect → List LayoutNode
  | [], _, _, _, _, _, _, _ => []
  | child :: rest, px, py, x, y, w, h, disp =>
    if rest.length = 0 then
      -- the last child fills the remaining space along its own axis
      if child.percentage.isColumnB then
        [calcNode child px y (x + w - px) h (some disp)]
      else
        [calcNode child x py w (y + h - py) (some disp)]
    else if child.percentage.isColumnB then
      -- column child: edge along the x axis
      let pos := disp.x + edgeOffset disp.width child.percentage
      calcNode child px y (pos - px) h (some disp)
        :: calcChildren rest pos py x y w h disp
    else
      -- row child: edge along the y axis
      let pos := disp.y + edgeOffset disp.height child.percentage
      calcNode child x py w (pos - py) (some disp)
        :: calcChildren rest px pos x y w h disp

end

/-- The external entry point `calculateRects(x, y, width, height)`:
`display` is undefined and defaults to the given rectangle. -/
def calculateRects (t : LayoutNode) (x y w h : ℚ) : LayoutNode :=
  calcNode t x y w h none

/-- The no-argument `calculateRects()` call: reuse the current root
rectangle. -/
def recalcRects (t : LayoutNode) : LayoutNode :=
  calcNode t t.rect.x t.rect.y t.rect.width t.rect.height none

mutual

/-- JS `validateRects()`: every rectangle strictly exceeds 100 units in
both dimensions. -/
def validateRects : LayoutNode → Bool
  | mk d cs =>
    if d.rect.width ≤ 100 ∨ d.rect.height ≤ 100 then false
    else validateRectsList cs

def validateRectsList : List LayoutNode → Bool
  | [] => true
  | c :: rest => validateRects c && validateRectsList rest

end

mutual

/-- JS `forSelfAndDescendants(func)` for a callback that reads and writes
only the fields of the visited node. -/
def mapAll (f : NodeData → NodeData) : LayoutNode → LayoutNode
  | mk d cs => mk (f d) (mapAllList f cs)

def mapAllList (f : NodeData → NodeData) : List LayoutNode → List LayoutNode
  | [] => []
  | c :: rest => mapAll f c :: mapAllList f rest

end

/-- JS `forDescendants(func)`: every strict descendant, not the node
itself. -/
def mapDescendants (f : NodeData → NodeData) : LayoutNode → LayoutNode
  | mk d cs => mk d (mapAllList f cs)

/-- First index of a structurally equal element (`Array.indexOf`). -/
def idxOf? {α : Type} [DecidableEq α] : List α → α → Option ℕ
  | [], _ => none
  | a :: as, t => if a = t then some 0 else (idxOf? as t).map (· + 1)

/-- JS `Array.splice(i, 0, a)` insertion, with the start index clamped to
the array length. -/
def insertAt {α : Type} : ℕ → α → List α → List α
  | 0, a, l => a :: l
  | _ + 1, a, [] => [a]
  | i + 1, a, b :: bs => b :: insertAt i a bs

/-- JS `insertChild(child)`.  The `child.parent = this` assignment is
implicit in the tree shape here (see the heap model for the claim about
the `parent` field itself).  A `findIndex` miss returns `-1` and
`splice(-1, 0, child)` inserts before the last element. -/
def insertChild : LayoutNode → LayoutNode → LayoutNode
  | mk d cs, child =>
    if (idxOf? cs child).isSome then mk d cs -- 'Child already in children collection'
    else if child.percentage = LastNodeXPercentage ∨ child.percentage = LastNodeYPercentage then
      mk d cs -- 'Child has invalid percentage'
    else
      let i := match cs.findIdx? (fun c => Perc.absGT c.percentage child.percentage) with
        | some i => i
        | none => cs.length - 1
      mk d (insertAt i child cs)

mutual

/-- JS `findNode(predicate)`: first match in pre-order. -/
def findNode (p : LayoutNode → Bool) : LayoutNode → Option LayoutNode
  | mk d cs => if p (mk d cs) then some (mk d cs) else findNodeList p cs

def findNodeList (p : LayoutNode → Bool) : List LayoutNode → Option LayoutNode
  | [] => none
  | c :: rest => (findNode p c).orElse fun _ => findNodeList p rest

end

mutual

/-- JS `delete(node)`: returns whether a deletion occurred together with
the resulting tree.  The search short-circuits exactly like
`reduce((deleted, child) => deleted || child.delete(node), false)`. -/
def delete : LayoutNode → LayoutNode → Bool × LayoutNode
  | mk d cs, target =>
    match idxOf? cs target with
    | some i =>
      if cs.length = 2 then (true, mk d [])
      else (true, mk d (cs.eraseIdx i))
    | none =>
      let r := deleteList cs target
      (r.1, mk d r.2)

def deleteList : List LayoutNode → LayoutNode → Bool × List LayoutNode
  | [], _ => (false, [])
  | c :: rest, target =>
    let r := delete c target
    if r.1 then (true, r.2 :: rest)
    else
      let r' := deleteList rest target
      (r'.1, c :: r'.2)

end

mutual

/-- JS `findNodeAtPosition(x, y)`: the first leaf in pre-order whose
rectangle contains the point. -/
def findNodeAtPosition : LayoutNode → ℚ → ℚ → Option LayoutNode
  | mk d cs, x, y =>
    if d.rect.containsB x y ∧ cs.length = 0 then some (mk d cs)
    else findNodeAtPositionList cs x y

def findNodeAtPositionList : List LayoutNode → ℚ → ℚ → Option LayoutNode
  | [], _, _ => none
  | c :: rest, x, y => (findNodeAtPosition c x y).orElse fun _ => findNodeAtPositionList rest x y

end

/-- JS `getDividerRect(dividerWidth)`.  The final branch is the source's
`root node has no divider` case; it is unreachable because `axis()` only
ever returns `AxisX` or `AxisY`. -/
def getDividerRect (n : LayoutNode) (dividerWidth : ℚ) : Rect :=
  let dw := max dividerWidth (2 * n.margin)
  if n.axis = AxisX then
    ⟨n.rect.x + n.rect.width - dw / 2, n.rect.y, dw, n.rect.height⟩
  else if n.axis = AxisY then
    ⟨n.rect.x, n.rect.y + n.rect.height - dw / 2, n.rect.width, dw⟩
  else
    ⟨-1, -1, 0, 0⟩

mutual

/-- JS `findDividerAtPosition(x, y, dividerWidth)`: the first node in
pre-order whose divider rectangle contains the point. -/
def findDividerAtPosition : LayoutNode → ℚ → ℚ → ℚ → Option LayoutNode
  | mk d cs, x, y, dw =>
    if (getDividerRect (mk d cs) dw).containsB x y then some (mk d cs)
    else findDividerList cs x y dw

def findDividerList : List LayoutNode → ℚ → ℚ → ℚ → Option LayoutNode
  | [], _, _, _ => none
  | c :: rest, x, y, dw => (findDividerAtPosition c x y dw).orElse fun _ => findDividerList rest x y dw

end

/-- The node at a pre-order path (child indices from the root). -/
def getAtPath : LayoutNode → List ℕ → Option LayoutNode
  | n, [] => some n
  | mk _ cs, i :: rest => (cs.get? i).bind (getAtPath · rest)

/-- Replace the element at an index, leaving the list unchanged when the
index is out of range. -/
def modifyIdx {α : Type} (f : α → α) : ℕ → List α → List α
  | _, [] => []
  | 0, a :: as => f a :: as
  | i + 1, a :: as => a :: modifyIdx f i as

/-- Apply a field update to the node object at a path (the model of
mutating a JS node located inside the tree). -/
def modifyData (f : NodeData → NodeData) : List ℕ → LayoutNode → LayoutNode
  | [], mk d cs => mk (f d) cs
  | i :: rest, mk d cs => mk d (modifyIdx (modifyData f rest) i cs)

/-- Replace the whole node object at a path. -/
def modifyNode (f : LayoutNode → LayoutNode) : List ℕ → LayoutNode → LayoutNode
  | [], n => f n
  | i :: rest, mk d cs => mk d (modifyIdx (modifyNode f rest) i cs)

/-- The percentage of the node at a path; callers only use valid paths. -/
def percAt (t : LayoutNode) (p : List ℕ) : Perc :=
  ((getAtPath t p).map percentage).getD Perc.undef

mutual

/-- Path-returning version of `findNode`: same pre-order search, but the
located object is identified by its position in the tree. -/
def findNodePath (p : LayoutNode → Bool) : LayoutNode → Option (List ℕ)
  | mk d cs => if p (mk d cs) then some [] else findNodePathList p cs 0

def findNodePathList (p : LayoutNode → Bool) : List LayoutNode → ℕ → Option (List ℕ)
  | [], _ => none
  | c :: rest, i =>
    match findNodePath p c with
    | some path => some (i :: path)
    | none => findNodePathList p rest (i + 1)

end

mutual

/-- Path-returning version of `findNodeAtPosition`. -/
def findNodeAtPositionPath : LayoutNode → ℚ → ℚ → Option (List ℕ)
  | mk d cs, x, y =>
    if d.rect.containsB x y ∧ cs.length = 0 then some []
    else findNodeAtPositionPathList cs x y 0

def findNodeAtPositionPathList : List LayoutNode → ℚ → ℚ → ℕ → Option (List ℕ)
  | [], _, _, _ => none
  | c :: rest, x, y, i =>
    match findNodeAtPositionPath c x y with
    | some path => some (i :: path)
    | none => findNodeAtPositionPathList rest x y (i + 1)

end

mutual

/-- Path-returning version of `findDividerAtPosition`. -/
def findDividerAtPositionPath : LayoutNode → ℚ → ℚ → ℚ → Option (List ℕ)
  | mk d cs, x, y, dw =>
    if (getDividerRect (mk d cs) dw).containsB x y then some []
    else findDividerPathList cs x y dw 0

def findDividerPathList : List LayoutNode → ℚ → ℚ → ℚ → ℕ → Option (List ℕ)
  | [], _, _, _, _ => none
  | c :: rest, x, y, dw, i =>
    match findDividerAtPositionPath c x y dw with
    | some path => some (i :: path)
    | none => findDividerPathList rest x y dw (i + 1)

end

/-- Overwrite the percentage of the last element of a children list (the
constructor's filler assignment). -/
def setLastPerc (p : Perc) : List LayoutNode → List LayoutNode
  | [] => []
  | mk d cs :: rest =>
    if rest.length = 0 then [mk { d with percentage := p } cs]
    else mk d cs :: setLastPerc p rest

/-- The JS constructor `new LayoutNode(percentage, children)`: fields get
their initializers, the children's `parent` pointers are set (implicit
here), and with two or more children the last child's percentage is
overwritten with the filler sentinel of the first child's axis. -/
def makeNode (p : Perc) (cs : List LayoutNode) : LayoutNode :=
  match cs with
  | c0 :: c1 :: rest =>
    let filler := if c0.axis = AxisX then LastNodeXPercentage else LastNodeYPercentage
    mk (NodeData.init p) (setLastPerc filler (c0 :: c1 :: rest))
  | _ => mk (NodeData.init p) cs

mutual

/-- JS `clone()`: rebuild through the constructor, then copy `rect`,
`isResizing`, `isPreview` and `margin` (the other scratch fields keep
their initializers). -/
def clone : LayoutNode → LayoutNode
  | mk d cs =>
    let c := makeNode d.percentage (cloneList cs)
    mk { c.data with
          rect := d.rect
          isResizing := d.isResizing
          isPreview := d.isPreview
          margin := d.margin }
      c.children

def cloneList : List LayoutNode → List LayoutNode
  | [] => []
  | c :: rest => clone c :: cloneList rest

end

/-- JS `revert(snapshotRootNode)`: copy percentage, rect, `isResizing`,
`isPreview`, `margin` and the `children` reference from the snapshot;
`isHighlighted`, `originalRect` and `isSnappingDestination` keep the
receiver's values. -/
def revert (t snapshot : LayoutNode) : LayoutNode :=
  mk { snapshot.data with
        isHighlighted := t.data.isHighlighted
        originalRect := t.data.originalRect
        isSnappingDestination := t.data.isSnappingDestination }
    snapshot.children

/-- The serialized form of a node: an object with optional `percentage`,
`margin` and `children` properties. -/
inductive JsonNode where
  | mk (percentage : Option ℚ) (margin : Option ℚ) (children : Option (List JsonNode))
deriving Repr

namespace JsonNode

def percentageJ : JsonNode → Option ℚ
  | mk p _ _ => p

def marginJ : JsonNode → Option ℚ
  | mk _ m _ => m

def childrenJ : JsonNode → Option (List JsonNode)
  | mk _ _ cs => cs

end JsonNode

/-- The percentage serialization of `toJSON`: the sentinels map to the
finite magic numbers, and an `undefined` percentage is dropped by
`JSON.stringify`. -/
def percToWire : Perc → Option ℚ
  | Perc.pinf => some LastNodeXPercentageJson
  | Perc.ninf => some LastNodeYPercentageJson
  | Perc.fin q => some q
  | Perc.undef => none

/-- The inverse mapping performed by `fromJSON`: the magic numbers map
back to the sentinels, a missing percentage stays `undefined`. -/
def percFromWire : Option ℚ → Perc
  | none => Perc.undef
  | some q =>
    if q = LastNodeXPercentageJson then Perc.pinf
    else if q = LastNodeYPercentageJson then Perc.ninf
    else Perc.fin q

mutual

/-- JS `toJSON()`: `children` is present only when non-empty and `margin`
only when non-zero. -/
def toJSON : LayoutNode → JsonNode
  | mk d cs =>
    let childrenJ : Option (List JsonNode) :=
      if cs.length > 0 then some (toJSONList cs) else none
    let marginJ : Option ℚ := if d.margin ≠ 0 then some d.margin else none
    JsonNode.mk (percToWire d.percentage) marginJ childrenJ

def toJSONList : List LayoutNode → List JsonNode
  | [] => []
  | c :: rest => toJSON c :: toJSONList rest

end

mutual

/-- JS `fromJSON(json)` as used by the load path, on a freshly constructed
`new LayoutNode()`: a missing margin keeps the initializer `0`, and
children are loaded only when present and non-empty. -/
def fromJSON : JsonNode → LayoutNode
  | JsonNode.mk percJ marginJ childrenJ =>
    let cs : List LayoutNode :=
      match childrenJ with
      | some l => if l.length > 0 then fromJSONList l else []
      | none => []
    mk { NodeData.init (percFromWire percJ) with margin := marginJ.getD 0 } cs

def fromJSONList : List JsonNode → List LayoutNode
  | [] => []
  | j :: rest => fromJSON j :: fromJSONList rest

end

mutual

/-- Every node of the tree in pre-order (the node itself first). -/
def subtrees : LayoutNode → List LayoutNode
  | mk d cs => mk d cs :: subtreesList cs

def subtreesList : List LayoutNode → List LayoutNode
  | [] => []
  | c :: rest => subtrees c ++ subtreesList rest

end

end LayoutNode

/-- The pure part of `LayoutIO.#loadLayoutFromFile` (`src/io-utils.js`):
deserialize the parsed JSON and accept the layout only when the integrity
check reports no error. -/
def loadLayout (j : LayoutNode.JsonNode) : Option LayoutNode :=
  let layout := LayoutNode.fromJSON j
  if layout.getIntegrityError = none then some layout else none

/-- The `handled`/`shouldRedraw` pair of a handled operation result; the
`notHandled` case is `none` at `Option OperationResult`. -/
structure OperationResult where
  handled : Bool
  shouldRedraw : Bool
deriving DecidableEq, Repr

/-- JS `OperationResult.handled()`. -/
def OperationResult.handledNoRedraw : OperationResult := ⟨true, false⟩

/-- JS `OperationResult.handledAndRedraw()`. -/
def OperationResult.handledAndRedraw : OperationResult := ⟨true, true⟩

-- The Clutter constants the operations compare against.
namespace Clutter

def BUTTON_PRIMARY : ℕ := 1

def BUTTON_SECONDARY : ℕ := 3

def CONTROL_MASK : ℕ := 4

def SHIFT_MASK : ℕ := 1

def KEY_1 : ℕ := 49

def KEY_2 : ℕ := 50

def KEY_3 : ℕ := 51

def KEY_4 : ℕ := 52

def KEY_5 : ℕ := 53

def KEY_6 : ℕ := 54

def KEY_7 : ℕ := 55

def KEY_8 : ℕ := 56

def KEY_Page_Up : ℕ := 65365

def KEY_Page_Down : ℕ := 65366

end Clutter

/-- State of `ResizeOperation`. -/
structure ResizeOperation where
  tree : LayoutNode
  dividerWidth : ℚ := 20
deriving Repr

namespace ResizeOperation

open LayoutNode

/-- JS `_stopResizing()`. -/
def stopResizing (op : ResizeOperation) : ResizeOperation :=
  { op with tree :=
      (mapAll (fun d => { d with isResizing := false, originalRect := none, isHighlighted := false })
        op.tree) }

/-- JS `_startResizing(nodeToResize)`, with the target node given by its
path: mark it resizing, snapshot all rectangles, wiggle the percentage by
5 percent, recompute, highlight every node whose rectangle moved, restore
the percentage and recompute. -/
def startResizing (op : ResizeOperation) (path : List ℕ) : ResizeOperation :=
  let t0 := modifyData (fun d => { d with isResizing := true }) path op.tree
  let originalPercentage := percAt t0 path
  let t1 := mapAll (fun d => { d with originalRect := some d.rect }) t0
  let t2 := modifyData (fun d => { d with percentage := d.percentage.scale (95 / 100) }) path t1
  let t3 := recalcRects t2
  let t4 := mapAll
    (fun d => { d with isHighlighted :=
      -- `n.originalRect.x != n.rect.x || ...`; `originalRect` was just
      -- assigned on every node, so the `none` arm is unreachable
      (match d.originalRect with
        | some r => decide (r ≠ d.rect)
        | none => true) }) t3
  let t5 := modifyData (fun d => { d with percentage := originalPercentage }) path t4
  { op with tree := recalcRects t5 }

/-- JS `_handleResizing(x, y)`. -/
def handleResizing (op : ResizeOperation) (x y : ℚ) : ResizeOperation × Option OperationResult :=
  match findNodePath (fun n => n.data.isResizing = true) op.tree with
  | none => (op, none)
  | some p =>
    let isCol :=
      match getAtPath op.tree p with
      | some n => n.isColumn
      | none => false
    let newPercentage : Perc :=
      Perc.fin (if isCol then (x - op.tree.rect.x) / op.tree.rect.width
                else -((y - op.tree.rect.y) / op.tree.rect.height))
    let oldPercentage := percAt op.tree p
    let t1 := recalcRects (modifyData (fun d => { d with percentage := newPercentage }) p op.tree)
    if t1.validateRects then
      ({ op with tree := t1 }, some OperationResult.handledAndRedraw)
    else
      ({ op with tree := (recalcRects (modifyData (fun d => { d with percentage := oldPercentage }) p t1)) },
        some OperationResult.handledAndRedraw)

/-- The body of the secondary-button delete branch of `onButtonPress`:
locate the divider, delete its node (`this.tree.delete(nodeWithDivider)`)
and recompute the geometry. -/
def secondaryDeleteBranch (op : ResizeOperation) (x y : ℚ) :
    Option (ResizeOperation × Option OperationResult) :=
  match findDividerAtPositionPath op.tree x y op.dividerWidth with
  | some p =>
    match getAtPath op.tree p with
    | some nodeWithDivider =>
      let r := op.tree.delete nodeWithDivider
      some ({ op with tree := recalcRects r.2 }, some OperationResult.handledAndRedraw)
    | none => none
  | none => none

/-- JS `onButtonPress(x, y, state, button)`. -/
def onButtonPress (op : ResizeOperation) (x y : ℚ) (state button : ℕ) :
    ResizeOperation × Option OperationResult :=
  let resizeNode := findNodePath (fun n => n.data.isResizing = true) op.tree
  match (if resizeNode = none ∧ button = Clutter.BUTTON_SECONDARY then
      op.secondaryDeleteBranch x y
    else none) with
  | some r => r
  | none =>
    if resizeNode.isSome ∧ button = Clutter.BUTTON_PRIMARY then
      (op.stopResizing, some OperationResult.handledAndRedraw)
    else if resizeNode.isSome ∧ button = Clutter.BUTTON_SECONDARY then
      (op.stopResizing, some OperationResult.handledAndRedraw)
    else if button = Clutter.BUTTON_PRIMARY then
      match findDividerAtPositionPath op.tree x y op.dividerWidth with
      | some p => (op.startResizing p, some OperationResult.handledAndRedraw)
      | none => (op, none)
    else (op, none)

/-- JS `onButtonRelease(x, y, state, button)`. -/
def onButtonRelease (op : ResizeOperation) (x y : ℚ) (state button : ℕ) :
    ResizeOperation × Option OperationResult :=
  if button = Clutter.BUTTON_PRIMARY ∧
      (findNodePath (fun n => n.data.isResizing = true) op.tree).isSome then
    (op.stopResizing, some OperationResult.handledAndRedraw)
  else (op, none)

/-- JS `onMotion(x, y, state)`. -/
def onMotion (op : ResizeOperation) (x y : ℚ) (state : ℕ) :
    ResizeOperation × Option OperationResult :=
  op.handleResizing x y

end ResizeOperation

/-- State of `PreviewSplitOperation`. -/
structure PreviewSplitOperation where
  tree : LayoutNode
  prePreviewSnapshot : Option LayoutNode := none
deriving Repr

namespace PreviewSplitOperation

open LayoutNode

/-- JS `_cancel()`: revert to the snapshot when one exists. -/
def cancelPreview (op : PreviewSplitOperation) : PreviewSplitOperation :=
  match op.prePreviewSnapshot with
  | some snap => { tree := revert op.tree snap, prePreviewSnapshot := none }
  | none => op

/-- The preview node built by `_startPreview`:
`new LayoutNode(percentage)` with `isPreview`, `isHighlighted` and the
splitting node's margin. -/
def previewNodeOf (marginOfLeaf : ℚ) (pp : Perc) : LayoutNode :=
  let n := makeNode pp []
  LayoutNode.mk { n.data with isPreview := true, isHighlighted := true, margin := marginOfLeaf } []

/-- JS `_startPreview(splittingNode, percentage)` with the splitting leaf
given by its path.  In the sibling case the leaf is highlighted and the
preview node is inserted into the parent (the JS order of these two
mutations is swapped here so the leaf keeps its pre-insertion index; the
two orders only differ if the fresh preview node is structurally equal to
an existing child). -/
def startPreviewAt (t : LayoutNode) (leafPath : List ℕ) (pp : Perc) : LayoutNode :=
  match getAtPath t leafPath with
  | none => t -- unreachable: the caller located the leaf at this path
  | some leaf =>
    let previewNode := previewNodeOf leaf.margin pp
    if previewNode.axis = leaf.axis ∧ leafPath ≠ [] then
      -- `splittingNode.parent.insertChild(previewNode); splittingNode.isHighlighted = true`
      let t1 := modifyData (fun d => { d with isHighlighted := true }) leafPath t
      modifyNode (fun parent => insertChild parent previewNode) leafPath.dropLast t1
    else
      -- turn the leaf into an internal node with the preview node and a
      -- filler child carrying the sentinel of the preview node's axis
      let lastChild0 := makeNode
        (if previewNode.axis = AxisX then LastNodeXPercentage else LastNodeYPercentage) []
      let lastChild := LayoutNode.mk
        { lastChild0.data with isHighlighted := true, margin := leaf.margin } []
      modifyNode (fun n => LayoutNode.mk n.data [previewNode, lastChild]) leafPath t

/-- JS `_finalizePreview()`. -/
def finalizePreview (op : PreviewSplitOperation) : PreviewSplitOperation :=
  if op.tree.validateRects then
    { tree := mapAll (fun d => { d with isPreview := false, originalRect := none }) op.tree
      prePreviewSnapshot := none }
  else op

/-- What the local `previewNode` variable of `_handlePreview` refers to
after the first two blocks: nothing, a node inside the tree (the first
pre-order node with `isPreview`), or a node that block 2 created and then
detached again by reverting the whole tree. -/
inductive PreviewRef where
  | noPreview
  | inTree
  | detached
deriving DecidableEq, Repr

/-- The parent reference of a node identified by its path (`null` for the
root), for the `node.parent != previewNode.parent` comparison. -/
def parentRef (p : List ℕ) : Option (List ℕ) :=
  if p = [] then none else some p.dropLast

/-- Block 1 of `_handlePreview`: cancel the preview if going out of
bounds (the pointer left the preview node's parent, or preview mode is no
longer enabled). -/
def previewStep1 (op : PreviewSplitOperation) (nodePath : Option (List ℕ))
    (previewModeEnabled : Bool) :
    PreviewSplitOperation × PreviewRef × Option OperationResult :=
  match findNodePath (fun n => n.data.isPreview = true) op.tree with
  | some pp =>
    let outOfBounds : Bool :=
      (match nodePath with
        | some np => decide (parentRef np ≠ parentRef pp)
        | none => false) || !previewModeEnabled
    if outOfBounds then
      let opc := op.cancelPreview
      ({ opc with tree := recalcRects opc.tree }, PreviewRef.noPreview,
        some OperationResult.handledAndRedraw)
    else (op, PreviewRef.inTree, none)
  | none => (op, PreviewRef.noPreview, none)

/-- Block 2 of `_handlePreview`: start a new preview when there is none,
the pointer is over a leaf, and preview mode is enabled; cancel right
away when the very first computed geometry is invalid. -/
def previewStep2 (x y : ℚ) (ctrlPressed previewModeEnabled : Bool)
    (nodePath : Option (List ℕ)) :
    PreviewSplitOperation × PreviewRef × Option OperationResult →
      PreviewSplitOperation × PreviewRef × Option OperationResult
  | (op1, ref1, res1) =>
    if ref1 = PreviewRef.noPreview ∧
        (match nodePath with
          | some np => (getAtPath op1.tree np).elim false isLeaf
          | none => false) = true ∧
        previewModeEnabled = true then
      match nodePath with
      | some np =>
        let snapshot := clone op1.tree
        let pp : Perc := Perc.fin
          (if ctrlPressed = true then (x - op1.tree.rect.x) / op1.tree.rect.width
            else -((y - op1.tree.rect.y) / op1.tree.rect.height))
        let t1 := recalcRects (startPreviewAt op1.tree np pp)
        let op2 : PreviewSplitOperation := { tree := t1, prePreviewSnapshot := some snapshot }
        if ¬ t1.validateRects then
          (op2.cancelPreview, PreviewRef.detached, some OperationResult.handledAndRedraw)
        else (op2, PreviewRef.inTree, some OperationResult.handledAndRedraw)
      | none => (op1, ref1, res1)
    else (op1, ref1, res1)

/-- Block 3 of `_handlePreview`: move the preview divider, speculatively
revalidating; when block 2 created and immediately detached the preview
node, its percentage updates touch nothing in the tree and only the
geometry recomputations remain. -/
def previewStep3 (x y : ℚ) :
    PreviewSplitOperation × PreviewRef × Option OperationResult →
      PreviewSplitOperation × Option OperationResult
  | (op2, ref2, res2) =>
    match ref2 with
    | PreviewRef.noPreview => (op2, res2)
    | PreviewRef.detached =>
      let t1 := recalcRects op2.tree
      let t2 := if t1.validateRects then t1 else recalcRects t1
      ({ op2 with tree := t2 }, some OperationResult.handledAndRedraw)
    | PreviewRef.inTree =>
      match findNodePath (fun n => n.data.isPreview = true) op2.tree with
      | none => (op2, some OperationResult.handledAndRedraw) -- unreachable
      | some p =>
        let isCol :=
          match getAtPath op2.tree p with
          | some n => n.isColumn
          | none => false
        let pp : Perc := Perc.fin
          (if isCol then (x - op2.tree.rect.x) / op2.tree.rect.width
            else -((y - op2.tree.rect.y) / op2.tree.rect.height))
        let oldPercentage := percAt op2.tree p
        let t1 := recalcRects (modifyData (fun d => { d with percentage := pp }) p op2.tree)
        if t1.validateRects then
          ({ op2 with tree := t1 }, some OperationResult.handledAndRedraw)
        else
          ({ op2 with tree := (recalcRects (modifyData (fun d => { d with percentage := oldPercentage }) p t1)) },
            some OperationResult.handledAndRedraw)

/-- JS `_handlePreview(x, y, state)`: the three blocks in sequence, with
the modifier flags and the pointed-at leaf computed once up front. -/
def handlePreview (op : PreviewSplitOperation) (x y : ℚ) (state : ℕ) :
    PreviewSplitOperation × Option OperationResult :=
  let ctrlPressed : Bool := Nat.land state Clutter.CONTROL_MASK != 0
  let shiftPressed : Bool := Nat.land state Clutter.SHIFT_MASK != 0
  let previewModeEnabled : Bool := ctrlPressed || shiftPressed
  let nodePath := findNodeAtPositionPath op.tree x y
  previewStep3 x y
    (previewStep2 x y ctrlPressed previewModeEnabled nodePath
      (previewStep1 op nodePath previewModeEnabled))

/-- JS `onMotion(x, y, state)`. -/
def onMotion (op : PreviewSplitOperation) (x y : ℚ) (state : ℕ) :
    PreviewSplitOperation × Option OperationResult :=
  op.handlePreview x y state

/-- JS `onKeyPress(x, y, state, key)`. -/
def onKeyPress (op : PreviewSplitOperation) (x y : ℚ) (state key : ℕ) :
    PreviewSplitOperation × Option OperationResult :=
  op.handlePreview x y state

/-- JS `onKeyRelease(x, y, state)`. -/
def onKeyRelease (op : PreviewSplitOperation) (x y : ℚ) (state : ℕ) :
    PreviewSplitOperation × Option OperationResult :=
  let ctrlPressed : Bool := Nat.land state Clutter.CONTROL_MASK != 0
  let shiftPressed : Bool := Nat.land state Clutter.SHIFT_MASK != 0
  if ctrlPressed || shiftPressed then
    (op.cancelPreview, some OperationResult.handledAndRedraw)
  else (op, none)

/-- JS `onButtonPress(x, y, state, button)`. -/
def onButtonPress (op : PreviewSplitOperation) (x y : ℚ) (state button : ℕ) :
    PreviewSplitOperation × Option OperationResult :=
  if (findNodePath (fun n => n.data.isPreview = true) op.tree).isSome ∧
      button = Clutter.BUTTON_PRIMARY then
    (op.finalizePreview, some OperationResult.handledAndRedraw)
  else op.handlePreview x y state

end PreviewSplitOperation

/-- State of `SnappingOperation`. -/
structure SnappingOperation where
  tree : LayoutNode
  showRegions : Bool := false
  enableSnappingModifiers : List ℕ
deriving Repr

namespace SnappingOperation

open LayoutNode

/-- JS `cancel()`. -/
def cancel (op : SnappingOperation) : SnappingOperation × Option OperationResult :=
  if op.showRegions then
    ({ op with
        showRegions := false
        tree := mapAll (fun d => { d with isSnappingDestination := false, isHighlighted := false }) op.tree },
      some OperationResult.handledAndRedraw)
  else (op, none)

/-- JS `onMotion(x, y, state)`. -/
def onMotion (op : SnappingOperation) (x y : ℚ) (state : ℕ) :
    SnappingOperation × Option OperationResult :=
  let snappingEnabled :=
    op.enableSnappingModifiers.length = 0 ∨
      op.enableSnappingModifiers.any (fun e => Nat.land state e ≠ 0)
  if ¬ snappingEnabled then op.cancel
  else
    match findNodeAtPositionPath op.tree x y with
    | none => op.cancel
    | some p =>
      let t1 := mapAll (fun d => { d with isSnappingDestination := false, isHighlighted := false }) op.tree
      let t2 := modifyData (fun d => { d with isSnappingDestination := true, isHighlighted := true }) p t1
      ({ op with showRegions := true, tree := t2 }, some OperationResult.handledAndRedraw)

/-- JS `currentSnapToRect()`. -/
def currentSnapToRect (op : SnappingOperation) : Option Rect :=
  (findNode (fun n => n.data.isSnappingDestination = true) op.tree).map snapRect

end SnappingOperation

/-- State of `MarginsOperation`. -/
structure MarginsOperation where
  tree : LayoutNode
  marginMin : ℚ := 0
  marginMax : ℚ := 20
deriving Repr

namespace MarginsOperation

open LayoutNode

/-- JS `onKeyPress(x, y, state, key)`: the two paging keys adjust every
descendant's margin by one, clamped to the configured range, then
recompute the geometry. -/
def onKeyPress (op : MarginsOperation) (x y : ℚ) (state key : ℕ) :
    MarginsOperation × Option OperationResult :=
  if key = Clutter.KEY_Page_Up then
    ({ op with tree := recalcRects (mapDescendants
        (fun d => { d with margin := max (min (d.margin + 1) op.marginMax) op.marginMin }) op.tree) },
      some OperationResult.handledAndRedraw)
  else if key = Clutter.KEY_Page_Down then
    ({ op with tree := recalcRects (mapDescendants
        (fun d => { d with margin := max (min (d.margin - 1) op.marginMax) op.marginMin }) op.tree) },
      some OperationResult.handledAndRedraw)
  else (op, none)

end MarginsOperation

/-- State of `PresetShortcutOperation`; `α` is the preset type (layout
trees in the application). -/
structure PresetShortcutOperation (α : Type) where
  tree : LayoutNode
  presets : List α
deriving Repr

namespace PresetShortcutOperation

/-- JS `onKeyPress(x, y, state, key)`.  The first component records the
callback invocation: `none` when `onUsePreset` is not called, and
`some v` when it is called with `v` (where `v = none` models an absent
slot passed as `undefined`). -/
def onKeyPress {α : Type} (op : PresetShortcutOperation α) (x y : ℚ) (state key : ℕ) :
    Option (Option α) × Option OperationResult :=
  if key = Clutter.KEY_1 then (some (op.presets.get? 0), some OperationResult.handledAndRedraw)
  else if key = Clutter.KEY_2 then (some (op.presets.get? 1), some OperationResult.handledAndRedraw)
  else if key = Clutter.KEY_3 then (some (op.presets.get? 2), some OperationResult.handledAndRedraw)
  else if key = Clutter.KEY_4 then (some (op.presets.get? 3), some OperationResult.handledAndRedraw)
  else if key = Clutter.KEY_5 then (some (op.presets.get? 4), some OperationResult.handledAndRedraw)
  else if key = Clutter.KEY_6 then (some (op.presets.get? 5), some OperationResult.handledAndRedraw)
  else if key = Clutter.KEY_7 then (some (op.presets.get? 6), some OperationResult.handledAndRedraw)
  else if key = Clutter.KEY_8 then (some (op.presets.get? 7), some OperationResult.handledAndRedraw)
  else (none, none)

end PresetShortcutOperation

/-- An abstract input event, as offered to every operation. -/
inductive InputEvent where
  | buttonPress (x y : ℚ) (state button : ℕ)
  | buttonRelease (x y : ℚ) (state button : ℕ)
  | motion (x y : ℚ) (state : ℕ)
  | keyPress (x y : ℚ) (state key : ℕ)
  | keyRelease (x y : ℚ) (state : ℕ)
  | cancelEvent
deriving DecidableEq, Repr

/-- One of the five operations, with its state. -/
inductive AnyOp where
  | resize (op : ResizeOperation)
  | preview (op : PreviewSplitOperation)
  | snapping (op : SnappingOperation)
  | margins (op : MarginsOperation)
  | preset (op : PresetShortcutOperation LayoutNode)
deriving Repr

namespace AnyOp

/-- The shared layout tree of the operation. -/
def tree : AnyOp → LayoutNode
  | resize op => op.tree
  | preview op => op.tree
  | snapping op => op.tree
  | margins op => op.tree
  | preset op => op.tree

/-- Dispatch an event to an operation.  Handlers that a class does not
override fall back to the `LayoutOperation` base class, which reports
not-handled and touches nothing; `PresetShortcutOperation` never touches
the tree at all. -/
def handleEvent : AnyOp → InputEvent → AnyOp × Option OperationResult
  | resize op, InputEvent.buttonPress x y s b =>
    let r := op.onButtonPress x y s b; (resize r.1, r.2)
  | resize op, InputEvent.buttonRelease x y s b =>
    let r := op.onButtonRelease x y s b; (resize r.1, r.2)
  | resize op, InputEvent.motion x y s =>
    let r := op.onMotion x y s; (resize r.1, r.2)
  | resize op, _ => (resize op, none)
  | preview op, InputEvent.buttonPress x y s b =>
    let r := op.onButtonPress x y s b; (preview r.1, r.2)
  | preview op, InputEvent.motion x y s =>
    let r := op.onMotion x y s; (preview r.1, r.2)
  | preview op, InputEvent.keyPress x y s k =>
    let r := op.onKeyPress x y s k; (preview r.1, r.2)
  | preview op, InputEvent.keyRelease x y s =>
    let r := op.onKeyRelease x y s; (preview r.1, r.2)
  | preview op, _ => (preview op, none)
  | snapping op, InputEvent.motion x y s =>
    let r := op.onMotion x y s; (snapping r.1, r.2)
  | snapping op, InputEvent.cancelEvent =>
    let r := op.cancel; (snapping r.1, r.2)
  | snapping op, _ => (snapping op, none)
  | margins op, InputEvent.keyPress x y s k =>
    let r := op.onKeyPress x y s k; (margins r.1, r.2)
  | margins op, _ => (margins op, none)
  | preset op, InputEvent.keyPress x y s k =>
    let r := op.onKeyPress x y s k; (preset op, r.2)
  | preset op, _ => (preset op, none)

end AnyOp

/-- The hardcoded default layout `LayoutOf2x2` of `src/application.js`. -/
def LayoutOf2x2 : LayoutNode :=
  LayoutNode.makeNode (Perc.fin 0)
    [ LayoutNode.makeNode (Perc.fin (1/2))
        [LayoutNode.makeNode (Perc.fin (-1/2)) [], LayoutNode.makeNode (Perc.fin 0) []],
      LayoutNode.makeNode (Perc.fin 0)
        [LayoutNode.makeNode (Perc.fin (-1/2)) [], LayoutNode.makeNode (Perc.fin 0) []] ]

/-- A heap record for one `LayoutNode` object, used to model the mutable
`parent` back-references that the pure tree cannot express. -/
structure NodeRec where
  percentage : Perc
  parent : Option ℕ := none
  children : List ℕ := []
  rect : Rect := Rect.zero
  isResizing : Bool := false
  isPreview : Bool := false
  isHighlighted : Bool := false
  originalRect : Option Rect := none
  isSnappingDestination : Bool := false
  margin : ℚ := 0
deriving DecidableEq, Repr

/-- A heap of node objects, addressed by object identity. -/
def Store : Type := ℕ → NodeRec

namespace Store

/-- Write one record. -/
def set (s : Store) (i : ℕ) (r : NodeRec) : Store :=
  fun j => if j = i then r else s j

@[simp] theorem set_same (s : Store) (i : ℕ) (r : NodeRec) : s.set i r i = r := by
  simp [set]

@[simp] theorem set_other (s : Store) (i j : ℕ) (r : NodeRec) (h : j ≠ i) :
    s.set i r j = s j := by
  simp [set, h]

/-- The splice position of `insertChild`: the first child of strictly
larger absolute percentage, or — when `findIndex` misses and returns `-1`
so that `splice(-1, 0, child)` inserts before the last element — the
next-to-last position. -/
def insertionIndex (s : Store) (self child : ℕ) : ℕ :=
  match (s self).children.findIdx?
      (fun c => Perc.absGT (s c).percentage (s child).percentage) with
  | some i => i
  | none => (s self).children.length - 1

/-- JS `insertChild(child)` on the heap: reject a child already present
or carrying a sentinel percentage; otherwise set the child's `parent` and
splice it in at the insertion index. -/
def insertChild (s : Store) (self child : ℕ) : Store :=
  if (LayoutNode.idxOf? (s self).children child).isSome then s
  else if (s child).percentage = LastNodeXPercentage ∨
      (s child).percentage = LastNodeYPercentage then s
  else
    let s1 := s.set child { s child with parent := some self }
    s1.set self { s1 self with
      children := LayoutNode.insertAt (insertionIndex s1 self child) child (s1 self).children }

/-- JS `revert(snapshotRootNode)` on the heap: copy `percentage`, `rect`,
`isResizing`, `isPreview`, `margin` and the `children` array reference
from the snapshot object; nothing else changes — in particular no
`parent` field of any node is rewired. -/
def revert (s : Store) (self snap : ℕ) : Store :=
  s.set self { s self with
    percentage := (s snap).percentage
    rect := (s snap).rect
    isResizing := (s snap).isResizing
    isPreview := (s snap).isPreview
    margin := (s snap).margin
    children := (s snap).children }

/-- Weak comparison of percentages by `Math.abs`, the order that
`insertChild` maintains: the sentinel magnitudes are infinite, and
nothing compares against `undefined`. -/
def absLEb : Perc → Perc → Bool
  | _, Perc.pinf => true
  | _, Perc.ninf => true
  | Perc.pinf, _ => false
  | Perc.ninf, _ => false
  | Perc.undef, _ => false
  | Perc.fin _, Perc.undef => false
  | Perc.fin a, Perc.fin b => |a| ≤ |b|

/-- Weakly ascending by `absLEb`. -/
def sortedAbsB : List Perc → Bool
  | [] => true
  | a :: rest =>
    (match rest.head? with
      | some b => absLEb a b
      | none => true) && sortedAbsB rest

/-- The children of a heap node, ordered weakly ascending by absolute
percentage. -/
def sortedAbsChildren (s : Store) (self : ℕ) : Bool :=
  sortedAbsB ((s self).children.map (fun c => (s c).percentage))

/-- The heap node's children list is non-empty and ends with a sentinel
last child. -/
def lastChildSentinelB (s : Store) (self : ℕ) : Bool :=
  match (s self).children.getLast? with
  | some c => decide ((s c).percentage = LastNodeXPercentage ∨
      (s c).percentage = LastNodeYPercentage)
  | none => false

end Store

namespace LayoutNode

mutual

/-- Structural equality in the sense of the serialization round-trip:
same children shape, every percentage and every margin equal (the cached
rectangle and the transient UI flags are not part of the wire format). -/
def structEqB : LayoutNode → LayoutNode → Bool
  | mk d cs, mk d' cs' =>
    d.percentage == d'.percentage && d.margin == d'.margin && structEqListB cs cs'

def structEqListB : List LayoutNode → List LayoutNode → Bool
  | [], [] => true
  | c :: cs, c' :: cs' => structEqB c c' && structEqListB cs cs'
  | _, _ => false

end

/-- A percentage that does not collide with the finite wire magic numbers
(the only values a finite percentage must avoid for the round-trip to be
exact). -/
def notWireMagic : Perc → Bool
  | Perc.fin q => decide (q ≠ LastNodeXPercentageJson ∧ q ≠ LastNodeYPercentageJson)
  | _ => true

end LayoutNode

namespace LayoutNode

/-- The claim's tiling property for a column-partitioned internal node
after `calculateRects`: the first child's span starts at the parent's
left edge, each child's span starts where the previous one ends, the
last child's span ends at the parent's right edge, and every child has
the parent's full vertical extent. -/
def tilesX (n : LayoutNode) : Prop :=
  (∀ c, n.children.head? = some c → c.rect.x = n.rect.x) ∧
  List.Chain' (fun a b => b.rect.x = a.rect.x + a.rect.width) n.children ∧
  (∀ c, n.children.getLast? = some c →
    c.rect.x + c.rect.width = n.rect.x + n.rect.width) ∧
  (∀ c ∈ n.children, c.rect.y = n.rect.y ∧ c.rect.height = n.rect.height)

/-- The same property along the y axis, for a row-partitioned node. -/
def tilesY (n : LayoutNode) : Prop :=
  (∀ c, n.children.head? = some c → c.rect.y = n.rect.y) ∧
  List.Chain' (fun a b => b.rect.y = a.rect.y + a.rect.height) n.children ∧
  (∀ c, n.children.getLast? = some c →
    c.rect.y + c.rect.height = n.rect.y + n.rect.height) ∧
  (∀ c ∈ n.children, c.rect.x = n.rect.x ∧ c.rect.width = n.rect.width)

/-- The safety condition under which `delete` preserves the structural
invariants: wherever the target occurs as a child (by the structural
equality modeling `indexOf`), the parent either has exactly two children
(it becomes a leaf) or the removed index is not the last one, so the
sentinel child survives.  The C1 counterexample is exactly a violation
of this condition. -/
def deleteSafeB (target t : LayoutNode) : Bool :=
  (subtrees t).all fun s =>
    match idxOf? s.children target with
    | some i => decide (s.children.length = 2 ∨ i + 1 ≠ s.children.length)
    | none => true

end LayoutNode

/-! ## The geometry computation over JS numbers -/

/-- Whether a percentage is a finite number (neither a sentinel nor
`undefined`). -/
def Perc.isFinB : Perc → Bool
  | Perc.fin _ => true
  | _ => false

/-- A JavaScript number as consumed by the geometry computation: a
finite (rational) value, one of the infinities, or `NaN`. -/
inductive JNum where
  | num (q : ℚ)
  | pinf
  | ninf
  | nan
deriving DecidableEq, Repr

namespace JNum

/-- JS addition. -/
def add : JNum → JNum → JNum
  | nan, _ => nan
  | _, nan => nan
  | num a, num b => num (a + b)
  | num _, pinf => pinf
  | num _, ninf => ninf
  | pinf, num _ => pinf
  | ninf, num _ => ninf
  | pinf, pinf => pinf
  | ninf, ninf => ninf
  | pinf, ninf => nan
  | ninf, pinf => nan

/-- JS subtraction. -/
def sub : JNum → JNum → JNum
  | nan, _ => nan
  | _, nan => nan
  | num a, num b => num (a - b)
  | num _, pinf => ninf
  | num _, ninf => pinf
  | pinf, num _ => pinf
  | ninf, num _ => ninf
  | pinf, pinf => nan
  | ninf, ninf => nan
  | pinf, ninf => pinf
  | ninf, pinf => ninf

/-- JS multiplication. -/
def mul : JNum → JNum → JNum
  | nan, _ => nan
  | _, nan => nan
  | num a, num b => num (a * b)
  | num a, pinf => if a > 0 then pinf else if a < 0 then ninf else nan
  | num a, ninf => if a > 0 then ninf else if a < 0 then pinf else nan
  | pinf, num b => if b > 0 then pinf else if b < 0 then ninf else nan
  | ninf, num b => if b > 0 then ninf else if b < 0 then pinf else nan
  | pinf, pinf => pinf
  | pinf, ninf => ninf
  | ninf, pinf => ninf
  | ninf, ninf => pinf

/-- JS `Math.abs`. -/
def jabs : JNum → JNum
  | num a => num |a|
  | nan => nan
  | _ => pinf

/-- JS division by the literal 10. -/
def div10 : JNum → JNum
  | num a => num (a / 10)
  | x => x

/-- JS `Math.round`, which fixes the infinities and `NaN`. -/
def round : JNum → JNum
  | num a => num ((LayoutNode.jsRound a : ℚ))
  | x => x

/-- JS multiplication by the literal 10. -/
def mul10 : JNum → JNum
  | num a => num (a * 10)
  | x => x

/-- The JS `==` test on numbers: `NaN` compares false with everything,
including itself. -/
def eqB : JNum → JNum → Bool
  | nan, _ => false
  | _, nan => false
  | num a, num b => decide (a = b)
  | pinf, pinf => true
  | ninf, ninf => true
  | _, _ => false

end JNum

/-- A percentage as a JS number: `undefined` coerces to `NaN` in
arithmetic. -/
def percToJ : Perc → JNum
  | Perc.fin q => JNum.num q
  | Perc.pinf => JNum.pinf
  | Perc.ninf => JNum.ninf
  | Perc.undef => JNum.nan

/-- A rectangle whose coordinates are JS numbers. -/
structure RectJ where
  x : JNum
  y : JNum
  width : JNum
  height : JNum
deriving DecidableEq, Repr

/-- Embed an (always finite) model rectangle. -/
def rectToJ (r : Rect) : RectJ :=
  ⟨JNum.num r.x, JNum.num r.y, JNum.num r.width, JNum.num r.height⟩

/-- The divider-edge computation over JS numbers:
`Math.round(Math.abs(len * percentage) / 10) * 10` with faithful
`NaN`/infinity propagation — in particular `NaN` for an `undefined`
percentage. -/
def edgeOffsetJ (len : JNum) (p : Perc) : JNum :=
  JNum.mul10 (JNum.round (JNum.div10 (JNum.jabs (JNum.mul len (percToJ p)))))

/-- The result of the geometry computation over JS numbers: the computed
rectangle of every node, in the shape of the input tree. -/
inductive JTree where
  | mk (rect : RectJ) (children : List JTree)

namespace JTree

/-- The computed rectangle. -/
def rect : JTree → RectJ
  | mk r _ => r

/-- The child results. -/
def children : JTree → List JTree
  | mk _ cs => cs

end JTree

mutual

/-- The rectangles of a model tree, as JS numbers. -/
def toJTree : LayoutNode → JTree
  | LayoutNode.mk d cs => JTree.mk (rectToJ d.rect) (toJTreeList cs)

def toJTreeList : List LayoutNode → List JTree
  | [] => []
  | c :: rest => toJTree c :: toJTreeList rest

end

mutual

/-- `calculateRects` over JS numbers: the same control flow as
`calcNode`/`calcChildren`, with every arithmetic operation performed in
`JNum`, so `NaN` and the infinities propagate exactly as in the
source. -/
def calcNodeJ : LayoutNode → JNum → JNum → JNum → JNum → Option RectJ → JTree
  | LayoutNode.mk _ cs, x, y, w, h, display =>
    let r : RectJ := ⟨x, y, w, h⟩
    if cs.length = 0 then JTree.mk r []
    else JTree.mk r (calcChildrenJ cs x y x y w h (display.getD r))

def calcChildrenJ :
    List LayoutNode → JNum → JNum → JNum → JNum → JNum → JNum → RectJ → List JTree
  | [], _, _, _, _, _, _, _ => []
  | child :: rest, px, py, x, y, w, h, disp =>
    if rest.length = 0 then
      if child.percentage.isColumnB then
        [calcNodeJ child px y (JNum.sub (JNum.add x w) px) h (some disp)]
      else
        [calcNodeJ child x py w (JNum.sub (JNum.add y h) py) (some disp)]
    else if child.percentage.isColumnB then
      let pos := JNum.add disp.x (edgeOffsetJ disp.width child.percentage)
      calcNodeJ child px y (JNum.sub pos px) h (some disp)
        :: calcChildrenJ rest pos py x y w h disp
    else
      let pos := JNum.add disp.y (edgeOffsetJ disp.height child.percentage)
      calcNodeJ child x py w (JNum.sub pos py) (some disp)
        :: calcChildrenJ rest px pos x y w h disp

end

/-- Every percentage the geometry computation feeds to the edge formula
— that is, every non-last child percentage of every subtree — is a
finite number.  An `undefined` percentage passes the integrity check but
makes the source compute `NaN` rectangles; this condition excludes
that. -/
def finiteDropLastB (t : LayoutNode) : Bool :=
  (LayoutNode.subtrees t).all fun s =>
    s.children.dropLast.all fun c => c.percentage.isFinB

/-! ## Concrete scenarios -/

/-- The default layout seeded on a 1000 by 800 work area. -/
def default2x2Rects : LayoutNode := LayoutNode.calculateRects LayoutOf2x2 0 0 1000 800

/-- The default layout with the root's first child marked as the node
being resized, as a primary-button press on its divider leaves it. -/
def default2x2Resizing : LayoutNode :=
  LayoutNode.modifyData (fun d => { d with isResizing := true }) [0] default2x2Rects

/-- The candidate tree of the rejected motion of the C6 scenario: first
child percentage set to 0.05 and the geometry recomputed. -/
def default2x2Candidate : LayoutNode :=
  LayoutNode.recalcRects
    (LayoutNode.modifyData (fun d => { d with percentage := Perc.fin (5/100) }) [0]
      default2x2Resizing)

/-- A structurally valid tree whose root is a row node with three column
children, the last carrying the sentinel; its trailing divider lies on
the root's right edge, where the root's own (row) divider rectangle does
not reach. -/
def rowRootColumns : LayoutNode :=
  LayoutNode.mk (NodeData.init (Perc.fin (-1/2)))
    [LayoutNode.mk (NodeData.init (Perc.fin (3/10))) [],
     LayoutNode.mk (NodeData.init (Perc.fin (1/2))) [],
     LayoutNode.mk (NodeData.init Perc.pinf) []]

/-- `rowRootColumns` seeded on a 1000 by 800 work area. -/
def rowRootColumnsRects : LayoutNode := LayoutNode.calculateRects rowRootColumns 0 0 1000 800

/-- A tree that passes the integrity check although the root's own
percentage is the finite wire magic number `99999` (the check constrains
only children). -/
def rootWithWireSentinel : LayoutNode :=
  LayoutNode.mk (NodeData.init (Perc.fin 99999))
    [LayoutNode.mk (NodeData.init (Perc.fin (1/2))) [],
     LayoutNode.mk (NodeData.init Perc.pinf) []]

/-- The first leaf of the first column of the seeded default layout,
used as a deletion target: its parent has exactly two children, so
deleting it is covered by the `deleteSafeB` condition. -/
def default2x2FirstLeaf : LayoutNode :=
  (LayoutNode.getAtPath default2x2Rects [0, 0]).getD default2x2Rects

/-- A tree that passes the integrity check although its first child's
percentage is `undefined`: every JS range comparison on `undefined` is
false, so the non-last-child test does not reject it. -/
def undefRowTree : LayoutNode :=
  LayoutNode.mk (NodeData.init (Perc.fin 0))
    [LayoutNode.mk (NodeData.init Perc.undef) [],
     LayoutNode.mk (NodeData.init Perc.ninf) []]

/-- The faithful JS-number geometry of `undefRowTree` on a 1000 by 800
work area. -/
def undefRowTreeJ : JTree :=
  calcNodeJ undefRowTree (JNum.num 0) (JNum.num 0) (JNum.num 1000) (JNum.num 800) none

/-- The preview-split operation state after a control-motion at
`(250, 100)` over the seeded default layout: a valid live preview column
at percentage one quarter inside the first leaf. -/
def previewAt025 : PreviewSplitOperation :=
  (PreviewSplitOperation.onMotion { tree := default2x2Rects } 250 100
    Clutter.CONTROL_MASK).1

/-! ## C4 -/

/-- C4: `findDividerAtPosition` is claimed never to return the root, but
the `root node has no divider` branch of `getDividerRect` is dead code
(`axis()` only returns `AxisX` or `AxisY`), so on the default 2x2 layout
seeded at `(0, 0, 1000, 800)` the point `(995, 100)` — inside the
thickness-20 band around the root's right edge — makes the search return
the root itself. -/
theorem c4_root_divider_matched :
    LayoutNode.getIntegrityError default2x2Rects = none ∧
    LayoutNode.findDividerAtPosition default2x2Rects 995 100 20 = some default2x2Rects := by
  decide

/-! ## C6 -/

/-- C6: on the default 2x2 layout seeded with
`calculateRects(0, 0, 1000, 800)` and the root's first child resizing, the
motion at `x = 50` proposes percentage `0.05`; the candidate geometry has
50-unit-wide leaves, `validateRects` rejects it, and the handler returns
with the percentage back at `0.5` and every rectangle exactly as before
the motion. -/
theorem c6_resize_below_minimum_rejected :
    LayoutNode.percAt default2x2Resizing [0] = Perc.fin (1/2) ∧
    (LayoutNode.getAtPath default2x2Candidate [0, 0]).map (fun n => n.rect.width) = some 50 ∧
    (LayoutNode.getAtPath default2x2Candidate [0, 1]).map (fun n => n.rect.width) = some 50 ∧
    LayoutNode.validateRects default2x2Candidate = false ∧
    (ResizeOperation.onMotion { tree := default2x2Resizing } 50 123 0).1.tree
      = default2x2Resizing ∧
    (ResizeOperation.onMotion { tree := default2x2Resizing } 50 123 0).2
      = some OperationResult.handledAndRedraw := by
  decide

/-! ## C1 counterexample -/

/-- C1 fails as stated, on three of its operation paths.
First, `rowRootColumnsRects` satisfies the structural invariants, yet
`ResizeOperation`'s secondary-button press at `(995, 100)` hits the
divider of the sentinel last child, deletes it, and leaves a tree whose
last child's percentage is no longer a sentinel.
Second, `ResizeOperation`'s motion handler with the pointer at
`x = -1200` stores percentage `-6/5` on the resizing node; the new
percentage flips the node's axis, the recomputed geometry passes
`validateRects`, and the out-of-range percentage is kept.
Third, `PreviewSplitOperation`'s motion handler on a valid live preview
(`previewAt025`) with the same out-of-bounds pointer does the same to
the preview node's percentage.  Every one of the three results is
reported handled-and-redraw. -/
theorem c1_operations_break_integrity :
    (LayoutNode.getIntegrityError rowRootColumnsRects = none ∧
      (ResizeOperation.onButtonPress { tree := rowRootColumnsRects } 995 100 0
          Clutter.BUTTON_SECONDARY).2 = some OperationResult.handledAndRedraw ∧
      (ResizeOperation.onButtonPress { tree := rowRootColumnsRects } 995 100 0
          Clutter.BUTTON_SECONDARY).1.tree.getIntegrityError
        = some "broken invariant: last child invalid percentage") ∧
    (LayoutNode.getIntegrityError default2x2Resizing = none ∧
      (ResizeOperation.onMotion { tree := default2x2Resizing } (-1200) 123 0).2
        = some OperationResult.handledAndRedraw ∧
      (ResizeOperation.onMotion { tree := default2x2Resizing } (-1200) 123 0).1.tree.getIntegrityError
        = some "broken invariant: percentage not in [-1,1]") ∧
    (LayoutNode.getIntegrityError previewAt025.tree = none ∧
      (PreviewSplitOperation.onMotion previewAt025 (-1200) 100 Clutter.CONTROL_MASK).2
        = some OperationResult.handledAndRedraw ∧
      (PreviewSplitOperation.onMotion previewAt025 (-1200) 100
          Clutter.CONTROL_MASK).1.tree.getIntegrityError
        = some "broken invariant: percentage not in [-1,1]") := by
  decide

/-! ## C3 counterexample -/

/-- C3 fails as stated: `rootWithWireSentinel` satisfies the structural
invariants (only children percentages are constrained), but serializing
writes the root's finite percentage `99999` and deserializing maps that
magic number back to `+Infinity`, so the round-trip changes the root's
percentage. -/
theorem c3_wire_sentinel_root_not_roundtripped :
    LayoutNode.getIntegrityError rootWithWireSentinel = none ∧
    rootWithWireSentinel.percentage = Perc.fin 99999 ∧
    (LayoutNode.fromJSON (LayoutNode.toJSON rootWithWireSentinel)).percentage = Perc.pinf := by
  decide

/-! ## C5 counterexample -/

/-- C5 fails as stated: with an empty preset list, pressing the first
designated key still invokes the callback — with `undefined`
(`some none`), not skipping the call. -/
theorem c5_absent_slot_still_invokes :
    (PresetShortcutOperation.onKeyPress
        { tree := LayoutOf2x2, presets := ([] : List ℕ) } 0 0 0 Clutter.KEY_1).1
      = some none := by
  decide

/-! ## C9: the constructor's sentinel overwrite -/

namespace LayoutNode

theorem setLastPerc_eq (p : Perc) : ∀ (cs : List LayoutNode) (c : LayoutNode),
    cs.getLast? = some c →
    setLastPerc p cs = cs.dropLast ++ [mk { c.data with percentage := p } c.children]
  | [], c, h => by simp at h
  | [mk d cs0], c, h => by
    simp only [List.getLast?_singleton, Option.some.injEq] at h
    subst h
    simp [setLastPerc]
  | mk d cs0 :: r :: rs, c, h => by
    rw [List.getLast?_cons_cons] at h
    simp only [setLastPerc]
    rw [if_neg (by simp)]
    rw [setLastPerc_eq p (r :: rs) c h, List.dropLast_cons₂, List.cons_append]

end LayoutNode

/-- C9: constructing a node with at least two children keeps the given
percentage and all children but the last unchanged, and overwrites the
last child's percentage — whatever it was — with the sentinel of the
first child's axis (`+Infinity` for a column first child, `-Infinity` for
a row first child), so the freshly constructed node satisfies the
last-child-sentinel invariant at its own level. -/
theorem c9_constructor_overwrites_last (p : Perc) (c0 c1 : LayoutNode)
    (rest : List LayoutNode) :
    (LayoutNode.makeNode p (c0 :: c1 :: rest)).percentage = p ∧
    (LayoutNode.makeNode p (c0 :: c1 :: rest)).children.dropLast = (c0 :: c1 :: rest).dropLast ∧
    ((LayoutNode.makeNode p (c0 :: c1 :: rest)).children.getLast?).map LayoutNode.percentage =
      some (if c0.axis = AxisX then Perc.pinf else Perc.ninf) ∧
    ((LayoutNode.makeNode p (c0 :: c1 :: rest)).children.getLast?).map LayoutNode.children =
      ((c0 :: c1 :: rest).getLast?).map LayoutNode.children ∧
    ((LayoutNode.makeNode p (c0 :: c1 :: rest)).children.getLast?).map
        (fun c => LayoutNode.notSentinel c.percentage) = some false := by
  obtain ⟨c, hc⟩ : ∃ c, (c0 :: c1 :: rest).getLast? = some c := by
    rw [List.getLast?_eq_getLast _ (by simp)]
    exact ⟨_, rfl⟩
  have hmk : (LayoutNode.makeNode p (c0 :: c1 :: rest)).children =
      (c0 :: c1 :: rest).dropLast ++
        [LayoutNode.mk { c.data with percentage :=
          (if c0.axis = AxisX then LastNodeXPercentage else LastNodeYPercentage) } c.children] := by
    simp only [LayoutNode.makeNode, LayoutNode.children_mk]
    rw [LayoutNode.setLastPerc_eq _ _ _ hc]
  refine ⟨rfl, ?_, ?_, ?_, ?_⟩
  · rw [hmk, List.dropLast_concat]
  · rw [hmk, List.getLast?_concat]
    by_cases h : c0.axis = AxisX <;>
      simp [h, LastNodeXPercentage, LastNodeYPercentage, LayoutNode.percentage]
  · rw [hmk, List.getLast?_concat, hc]
    rfl
  · rw [hmk, List.getLast?_concat]
    by_cases h : c0.axis = AxisX <;>
      simp [h, LastNodeXPercentage, LastNodeYPercentage, LayoutNode.percentage,
        LayoutNode.notSentinel]

/-- Witness for C9 at a concrete input: two leaves, the second given an
ordinary percentage that the constructor overwrites. -/
theorem c9_constructor_overwrites_last_witness :
    ((LayoutNode.makeNode (Perc.fin 0)
        [LayoutNode.mk (NodeData.init (Perc.fin (1/2))) [],
         LayoutNode.mk (NodeData.init (Perc.fin (1/4))) []]).children.getLast?).map
      LayoutNode.percentage = some (if (LayoutNode.mk (NodeData.init (Perc.fin (1/2))) []).axis = AxisX
        then Perc.pinf else Perc.ninf) :=
  (c9_constructor_overwrites_last (Perc.fin 0)
    (LayoutNode.mk (NodeData.init (Perc.fin (1/2))) [])
    (LayoutNode.mk (NodeData.init (Perc.fin (1/4))) []) []).2.2.1

/-! ## C10: revert does not rewire parent back-references -/

/-- C10: `revert(snapshot)` copies exactly `percentage`, `rect`,
`isResizing`, `isPreview`, `margin` and the `children` reference from the
snapshot object; no `parent` field anywhere in the heap changes — in
particular every element of the reverted node's new children list still
carries whatever `parent` reference it had before (the snapshot node, not
the reverted node), and every object other than the receiver is untouched. -/
theorem c10_revert_keeps_parents (s : Store) (self snap : ℕ) :
    ((s.revert self snap) self).children = (s snap).children ∧
    (∀ c : ℕ, ((s.revert self snap) c).parent = (s c).parent) ∧
    (∀ c : ℕ, c ∈ ((s.revert self snap) self).children →
      ((s.revert self snap) c).parent = (s c).parent) ∧
    ((s.revert self snap) self).percentage = (s snap).percentage ∧
    ((s.revert self snap) self).rect = (s snap).rect ∧
    ((s.revert self snap) self).isResizing = (s snap).isResizing ∧
    ((s.revert self snap) self).isPreview = (s snap).isPreview ∧
    ((s.revert self snap) self).margin = (s snap).margin ∧
    ((s.revert self snap) self).isHighlighted = (s self).isHighlighted ∧
    ((s.revert self snap) self).originalRect = (s self).originalRect ∧
    ((s.revert self snap) self).isSnappingDestination = (s self).isSnappingDestination ∧
    (∀ j : ℕ, j ≠ self → (s.revert self snap) j = s j) := by
  have hparent : ∀ c : ℕ, ((s.revert self snap) c).parent = (s c).parent := by
    intro c
    by_cases h : c = self
    · subst h; simp [Store.revert]
    · simp [Store.revert, Store.set, h]
  refine ⟨by simp [Store.revert], hparent, fun c _ => hparent c, ?_, ?_, ?_, ?_, ?_, ?_, ?_, ?_, ?_⟩
  all_goals simp [Store.revert, Store.set]
  intro j hj
  simp [hj]

/-- Witness for C10 on a concrete three-object heap: object 0 reverts to
snapshot object 1, whose single child 2 keeps `parent = some 1`. -/
theorem c10_revert_keeps_parents_witness :
    (Store.revert
        (fun i => if i = 1 then { percentage := Perc.fin 0, children := [2] }
          else if i = 2 then { percentage := Perc.pinf, parent := some 1 }
          else { percentage := Perc.fin 0 }) 0 1 2).parent = some 1 := by
  have h := (c10_revert_keeps_parents
    (fun i => if i = 1 then { percentage := Perc.fin 0, children := [2] }
      else if i = 2 then { percentage := Perc.pinf, parent := some 1 }
      else { percentage := Perc.fin 0 }) 0 1).2.1 2
  rw [h]
  simp

/-! ## C5 amended: the exact key-to-slot behaviour -/

/-- The eight designated keys, mapped to their preset indices. -/
def keyIndex? (key : ℕ) : Option ℕ :=
  if key = Clutter.KEY_1 then some 0
  else if key = Clutter.KEY_2 then some 1
  else if key = Clutter.KEY_3 then some 2
  else if key = Clutter.KEY_4 then some 3
  else if key = Clutter.KEY_5 then some 4
  else if key = Clutter.KEY_6 then some 5
  else if key = Clutter.KEY_7 then some 6
  else if key = Clutter.KEY_8 then some 7
  else none

/-- C5 (amended): every one of the eight designated keys invokes the
callback with the indexed entry of the preset list — the absent marker
(`undefined`, i.e. `none`) when the slot is missing — and reports
handled-and-redraw; any other key invokes nothing and is unhandled. -/
theorem c5_preset_shortcut_amended {α : Type} (op : PresetShortcutOperation α)
    (x y : ℚ) (state key : ℕ) :
    PresetShortcutOperation.onKeyPress op x y state key =
      ((keyIndex? key).map (fun i => op.presets.get? i),
        if (keyIndex? key).isSome then some OperationResult.handledAndRedraw else none) := by
  unfold PresetShortcutOperation.onKeyPress keyIndex?
  split_ifs <;> first | rfl | simp_all

/-! ## C8: a not-handled result leaves the tree untouched -/

theorem handleResizing_notHandled (op : ResizeOperation) (x y : ℚ)
    (h : (op.handleResizing x y).2 = none) : (op.handleResizing x y).1 = op := by
  rcases hE : op.handleResizing x y with ⟨op', r⟩
  rw [hE] at h
  simp only at h
  subst h
  unfold ResizeOperation.handleResizing at hE
  simp only at hE
  repeat' split at hE
  all_goals first
    | exact (congrArg Prod.fst hE).symm
    | exact Option.noConfusion (congrArg Prod.snd hE)

theorem secondaryDeleteBranch_handled (op : ResizeOperation) (x y : ℚ)
    (r : ResizeOperation × Option OperationResult)
    (h : op.secondaryDeleteBranch x y = some r) :
    r.2 = some OperationResult.handledAndRedraw := by
  unfold ResizeOperation.secondaryDeleteBranch at h
  repeat' split at h
  all_goals first
    | exact Option.noConfusion h
    | (injection h with h; exact (congrArg Prod.snd h).symm)

theorem onButtonPress_resize_notHandled (op : ResizeOperation) (x y : ℚ) (state button : ℕ)
    (h : (op.onButtonPress x y state button).2 = none) :
    (op.onButtonPress x y state button).1 = op := by
  rcases hE : op.onButtonPress x y state button with ⟨op', r⟩
  rw [hE] at h
  simp only at h
  subst h
  unfold ResizeOperation.onButtonPress at hE
  simp only at hE
  split at hE
  · rename_i r1 heq
    split at heq
    · have h2 := secondaryDeleteBranch_handled op x y r1 heq
      rw [hE] at h2
      exact Option.noConfusion h2
    · exact Option.noConfusion heq
  · repeat' split at hE
    all_goals first
      | exact (congrArg Prod.fst hE).symm
      | exact Option.noConfusion (congrArg Prod.snd hE)

theorem onButtonRelease_resize_notHandled (op : ResizeOperation) (x y : ℚ) (state button : ℕ)
    (h : (op.onButtonRelease x y state button).2 = none) :
    (op.onButtonRelease x y state button).1 = op := by
  rcases hE : op.onButtonRelease x y state button with ⟨op', r⟩
  rw [hE] at h
  simp only at h
  subst h
  unfold ResizeOperation.onButtonRelease at hE
  repeat' split at hE
  all_goals first
    | exact (congrArg Prod.fst hE).symm
    | exact Option.noConfusion (congrArg Prod.snd hE)

theorem previewStep3_notHandled (x y : ℚ)
    (s : PreviewSplitOperation × PreviewSplitOperation.PreviewRef × Option OperationResult)
    (h : (PreviewSplitOperation.previewStep3 x y s).2 = none) :
    (PreviewSplitOperation.previewStep3 x y s).1 = s.1 ∧ s.2.2 = none := by
  rcases s with ⟨op2, ref2, res2⟩
  cases ref2 with
  | noPreview => exact ⟨rfl, h⟩
  | detached => exact Option.noConfusion h
  | inTree =>
    unfold PreviewSplitOperation.previewStep3 at h
    simp only at h
    repeat' split at h
    all_goals exact Option.noConfusion h

theorem previewStep2_notHandled (x y : ℚ) (c m : Bool) (np : Option (List ℕ))
    (s : PreviewSplitOperation × PreviewSplitOperation.PreviewRef × Option OperationResult)
    (h : (PreviewSplitOperation.previewStep2 x y c m np s).2.2 = none) :
    PreviewSplitOperation.previewStep2 x y c m np s = s := by
  rcases s with ⟨op1, ref1, res1⟩
  unfold PreviewSplitOperation.previewStep2 at h ⊢
  simp only at h ⊢
  repeat' split at h <;> try rfl
  all_goals (repeat' split) <;> simp_all

theorem previewStep1_notHandled (op : PreviewSplitOperation) (np : Option (List ℕ)) (m : Bool)
    (h : (PreviewSplitOperation.previewStep1 op np m).2.2 = none) :
    (PreviewSplitOperation.previewStep1 op np m).1 = op := by
  unfold PreviewSplitOperation.previewStep1 at h ⊢
  simp only at h ⊢
  repeat' split at h <;> repeat' split
  all_goals simp_all

theorem handlePreview_notHandled (op : PreviewSplitOperation) (x y : ℚ) (state : ℕ)
    (h : (op.handlePreview x y state).2 = none) : (op.handlePreview x y state).1 = op := by
  unfold PreviewSplitOperation.handlePreview at h ⊢
  simp only at h ⊢
  obtain ⟨h3, h2⟩ := previewStep3_notHandled x y _ h
  rw [h3, previewStep2_notHandled _ _ _ _ _ _ h2]
  have h1 : (PreviewSplitOperation.previewStep1 op
      (LayoutNode.findNodeAtPositionPath op.tree x y)
      (Nat.land state Clutter.CONTROL_MASK != 0 || Nat.land state Clutter.SHIFT_MASK != 0)).2.2 = none := by
    have := previewStep2_notHandled _ _ _ _ _ _ h2
    rw [this] at h2
    exact h2
  exact previewStep1_notHandled _ _ _ h1

theorem onKeyRelease_preview_notHandled (op : PreviewSplitOperation) (x y : ℚ) (state : ℕ)
    (h : (op.onKeyRelease x y state).2 = none) : (op.onKeyRelease x y state).1 = op := by
  rcases hE : op.onKeyRelease x y state with ⟨op', r⟩
  rw [hE] at h
  simp only at h
  subst h
  unfold PreviewSplitOperation.onKeyRelease at hE
  simp only at hE
  repeat' split at hE
  all_goals first
    | exact (congrArg Prod.fst hE).symm
    | exact Option.noConfusion (congrArg Prod.snd hE)

theorem onButtonPress_preview_notHandled (op : PreviewSplitOperation) (x y : ℚ) (state button : ℕ)
    (h : (op.onButtonPress x y state button).2 = none) :
    (op.onButtonPress x y state button).1 = op := by
  rcases hE : op.onButtonPress x y state button with ⟨op', r⟩
  rw [hE] at h
  simp only at h
  subst h
  unfold PreviewSplitOperation.onButtonPress at hE
  split at hE
  · exact Option.noConfusion (congrArg Prod.snd hE)
  · have h2 : (op.handlePreview x y state).2 = none := by rw [hE]
    have h1 := handlePreview_notHandled op x y state h2
    rw [hE] at h1
    exact h1

theorem cancel_snapping_notHandled (op : SnappingOperation)
    (h : op.cancel.2 = none) : op.cancel.1 = op := by
  rcases hE : op.cancel with ⟨op', r⟩
  rw [hE] at h
  simp only at h
  subst h
  unfold SnappingOperation.cancel at hE
  repeat' split at hE
  all_goals first
    | exact (congrArg Prod.fst hE).symm
    | exact Option.noConfusion (congrArg Prod.snd hE)

theorem onMotion_snapping_notHandled (op : SnappingOperation) (x y : ℚ) (state : ℕ)
    (h : (op.onMotion x y state).2 = none) : (op.onMotion x y state).1 = op := by
  rcases hE : op.onMotion x y state with ⟨op', r⟩
  rw [hE] at h
  simp only at h
  subst h
  unfold SnappingOperation.onMotion at hE
  simp only at hE
  split at hE
  · have h2 : op.cancel.2 = none := by rw [hE]
    have h1 := cancel_snapping_notHandled op h2
    rw [hE] at h1
    exact h1
  · split at hE
    · have h2 : op.cancel.2 = none := by rw [hE]
      have h1 := cancel_snapping_notHandled op h2
      rw [hE] at h1
      exact h1
    · exact Option.noConfusion (congrArg Prod.snd hE)

theorem onKeyPress_margins_notHandled (op : MarginsOperation) (x y : ℚ) (state key : ℕ)
    (h : (op.onKeyPress x y state key).2 = none) : (op.onKeyPress x y state key).1 = op := by
  rcases hE : op.onKeyPress x y state key with ⟨op', r⟩
  rw [hE] at h
  simp only at h
  subst h
  unfold MarginsOperation.onKeyPress at hE
  repeat' split at hE
  all_goals first
    | exact (congrArg Prod.fst hE).symm
    | exact Option.noConfusion (congrArg Prod.snd hE)

/-- C8: whenever one of the five operations reports not-handled (`none`)
for an input event, the layout tree after the call — every node's
percentage, children, rectangle, margin and UI flags — is exactly the
tree before the call (in fact the whole operation state is unchanged). -/
theorem c8_not_handled_leaves_tree_unchanged (op : AnyOp) (e : InputEvent)
    (h : (op.handleEvent e).2 = none) : (op.handleEvent e).1.tree = op.tree := by
  cases op with
  | resize o =>
    cases e <;> simp only [AnyOp.handleEvent, AnyOp.tree] at h ⊢ <;> try rfl
    · exact congrArg ResizeOperation.tree (onButtonPress_resize_notHandled o _ _ _ _ h)
    · exact congrArg ResizeOperation.tree (onButtonRelease_resize_notHandled o _ _ _ _ h)
    · exact congrArg ResizeOperation.tree (handleResizing_notHandled o _ _ h)
  | preview o =>
    cases e <;> simp only [AnyOp.handleEvent, AnyOp.tree] at h ⊢ <;> try rfl
    · exact congrArg PreviewSplitOperation.tree (onButtonPress_preview_notHandled o _ _ _ _ h)
    · exact congrArg PreviewSplitOperation.tree (handlePreview_notHandled o _ _ _ h)
    · exact congrArg PreviewSplitOperation.tree (handlePreview_notHandled o _ _ _ h)
    · exact congrArg PreviewSplitOperation.tree (onKeyRelease_preview_notHandled o _ _ _ h)
  | snapping o =>
    cases e <;> simp only [AnyOp.handleEvent, AnyOp.tree] at h ⊢ <;> try rfl
    · exact congrArg SnappingOperation.tree (onMotion_snapping_notHandled o _ _ _ h)
    · exact congrArg SnappingOperation.tree (cancel_snapping_notHandled o h)
  | margins o =>
    cases e <;> simp only [AnyOp.handleEvent, AnyOp.tree] at h ⊢ <;> try rfl
    exact congrArg MarginsOperation.tree (onKeyPress_margins_notHandled o _ _ _ _ h)
  | preset o =>
    cases e <;> rfl

/-- Witness for C8: a button press with a button that is neither primary
nor secondary is not handled by the resize operation and leaves the
default layout unchanged. -/
theorem c8_not_handled_leaves_tree_unchanged_witness :
    ((AnyOp.resize { tree := default2x2Rects }).handleEvent
        (InputEvent.buttonPress 50 50 0 2)).2 = none ∧
    ((AnyOp.resize { tree := default2x2Rects }).handleEvent
        (InputEvent.buttonPress 50 50 0 2)).1.tree
      = (AnyOp.resize { tree := default2x2Rects }).tree :=
  ⟨by decide,
    c8_not_handled_leaves_tree_unchanged (AnyOp.resize { tree := default2x2Rects })
      (InputEvent.buttonPress 50 50 0 2) (by decide)⟩

/-! ## C3 amended: the serialization round-trip -/

namespace LayoutNode

theorem toJSONList_length : ∀ cs : List LayoutNode, (toJSONList cs).length = cs.length
  | [] => rfl
  | _ :: rest => by simp [toJSONList, toJSONList_length rest]

theorem integrityErrorList_none : ∀ cs : List LayoutNode,
    integrityErrorList cs = none ↔ ∀ c ∈ cs, getIntegrityError c = none
  | [] => by simp [integrityErrorList]
  | c :: rest => by
    simp only [integrityErrorList, List.mem_cons]
    cases h : getIntegrityError c with
    | none =>
      simp only [Option.orElse, Option.none_orElse]
      rw [integrityErrorList_none rest]
      constructor
      · rintro hr x (rfl | hx)
        · exact h
        · exact hr x hx
      · intro hall x hx
        exact hall x (Or.inr hx)
    | some e =>
      simp only [Option.orElse, Option.some_orElse]
      constructor
      · rintro ⟨⟩
      · intro hall
        have h2 := hall c (Or.inl rfl)
        rw [h] at h2
        exact Option.noConfusion h2

/-- Decomposition of a passing integrity check at one node. -/
theorem getIntegrityError_none (d : NodeData) (cs : List LayoutNode)
    (h : getIntegrityError (mk d cs) = none) :
    cs.length ≠ 1 ∧
    (∀ c ∈ cs.dropLast, percBad c.percentage = false) ∧
    (∀ c, cs.getLast? = some c → notSentinel c.percentage = false) ∧
    (∀ c ∈ cs, getIntegrityError c = none) := by
  unfold getIntegrityError at h
  split at h
  · exact Option.noConfusion h
  · split at h
    · exact Option.noConfusion h
    · split at h
      · exact Option.noConfusion h
      · rename_i h1 h2 h3
        refine ⟨h1, ?_, ?_, (integrityErrorList_none cs).mp h⟩
        · intro c hc
          by_contra hb
          exact h2 (List.any_eq_true.mpr ⟨c, hc, by simpa using hb⟩)
        · intro c hc
          by_contra hb
          rw [hc] at h3
          simp only [Option.elim_some] at h3
          simp_all

/-- Splitting membership in a non-empty list into the leading part and
the last element. -/
theorem mem_dropLast_or_getLast (cs : List LayoutNode) (c last : LayoutNode)
    (hc : c ∈ cs) (hne : cs.getLast? = some last) :
    c ∈ cs.dropLast ∨ c = last := by
  have hne2 : cs ≠ [] := by
    intro hx
    subst hx
    simp at hne
  have hcat := List.dropLast_concat_getLast hne2
  have hl : cs.getLast hne2 = last := by
    have h3 := List.getLast?_eq_getLast cs hne2
    rw [hne] at h3
    exact (Option.some.inj h3).symm
  rw [hl] at hcat
  rw [← hcat] at hc
  rcases List.mem_append.mp hc with h1 | h2
  · exact Or.inl h1
  · simp at h2
    exact Or.inr h2

/-- Integrity of a node bounds every child's percentage away from the
wire magic numbers. -/
theorem child_notWireMagic (d : NodeData) (cs : List LayoutNode)
    (h : getIntegrityError (mk d cs) = none) :
    ∀ c ∈ cs, notWireMagic c.percentage = true := by
  obtain ⟨-, hRange, hLast, -⟩ := getIntegrityError_none d cs h
  intro c hc
  rcases hne : cs.getLast? with _ | last
  · rw [List.getLast?_eq_none_iff] at hne
    subst hne
    simp at hc
  · rcases mem_dropLast_or_getLast cs c last hc hne with h1 | rfl
    · have hpb := hRange c h1
      cases hp : c.percentage with
      | fin q =>
        rw [hp] at hpb
        simp only [percBad, decide_eq_false_iff_not, not_or, not_lt] at hpb
        simp only [notWireMagic, LastNodeXPercentageJson, LastNodeYPercentageJson,
          decide_eq_true_eq]
        constructor
        · intro hq; rw [hq] at hpb; norm_num at hpb
        · intro hq; rw [hq] at hpb; norm_num at hpb
      | pinf => rw [hp] at hpb; simp [percBad] at hpb
      | ninf => rw [hp] at hpb; simp [percBad] at hpb
      | undef => simp [notWireMagic]
    · have hns := hLast c hne
      cases hp : c.percentage with
      | fin q => rw [hp] at hns; simp [notSentinel] at hns
      | pinf => simp [notWireMagic]
      | ninf => simp [notWireMagic]
      | undef => rw [hp] at hns; simp [notSentinel] at hns

/-- The wire mapping is inverted exactly on percentages that avoid the
magic numbers. -/
theorem percFromWire_percToWire (p : Perc) (hp : notWireMagic p = true) :
    percFromWire (percToWire p) = p := by
  cases p with
  | fin q =>
    simp only [notWireMagic, decide_eq_true_eq] at hp
    simp [percToWire, percFromWire, hp.1, hp.2]
  | pinf => simp [percToWire, percFromWire]
  | ninf =>
    simp only [percToWire, percFromWire]
    rw [if_neg (by norm_num [LastNodeXPercentageJson, LastNodeYPercentageJson])]
    simp
  | undef => rfl

/-- One unfolding of the composite: deserializing a serialized node. -/
theorem fromJSON_toJSON (d : NodeData) (cs : List LayoutNode) :
    fromJSON (toJSON (mk d cs)) =
      mk { NodeData.init (percFromWire (percToWire d.percentage)) with margin := d.margin }
        (if cs.length > 0 then fromJSONList (toJSONList cs) else []) := by
  unfold toJSON fromJSON
  simp only
  congr 1
  · congr 1
    by_cases hm : d.margin = 0 <;> simp [hm]
  · by_cases hc : cs.length > 0
    · rw [if_pos hc, if_pos hc]
      have hlen : (toJSONList cs).length > 0 := by rwa [toJSONList_length]
      simp [hlen]
    · rw [if_neg hc, if_neg hc]

mutual

theorem roundtrip_aux : ∀ t : LayoutNode, notWireMagic t.percentage = true →
    t.getIntegrityError = none → structEqB (fromJSON (toJSON t)) t = true
  | mk d cs, hp, hi => by
    have hkids : ∀ c ∈ cs, notWireMagic c.percentage = true ∧ getIntegrityError c = none := by
      intro c hc
      exact ⟨child_notWireMagic d cs hi c hc,
        (getIntegrityError_none d cs hi).2.2.2 c hc⟩
    have hlist := roundtrip_auxList cs (fun c hc => hkids c hc)
    rw [fromJSON_toJSON]
    unfold structEqB
    simp only [percentage, data_mk] at hp
    rw [Bool.and_eq_true, Bool.and_eq_true]
    refine ⟨⟨?_, by simp [NodeData.init]⟩, ?_⟩
    · simp [NodeData.init, percFromWire_percToWire d.percentage hp]
    · by_cases hc : cs.length > 0
      · rw [if_pos hc]
        exact hlist
      · rw [if_neg hc]
        have : cs = [] := by
          cases cs with
          | nil => rfl
          | cons a l => simp at hc
        rw [this]
        rfl

theorem roundtrip_auxList : ∀ cs : List LayoutNode,
    (∀ c ∈ cs, notWireMagic c.percentage = true ∧ getIntegrityError c = none) →
    structEqListB (fromJSONList (toJSONList cs)) cs = true
  | [], _ => rfl
  | c :: rest, h => by
    unfold toJSONList fromJSONList structEqListB
    rw [Bool.and_eq_true]
    refine ⟨roundtrip_aux c (h c (by simp)).1 (h c (by simp)).2, ?_⟩
    exact roundtrip_auxList rest (fun x hx => h x (List.mem_cons_of_mem c hx))

end

end LayoutNode

/-- C3 (amended): for every tree satisfying the structural invariants and
whose root percentage is not one of the finite wire magic numbers `99999`
and `-99999` (children percentages cannot be, by the invariants, so only
the root can collide), `fromJSON` after `toJSON` reproduces the tree
structurally — children shape, every percentage (the sentinels going
through the magic numbers), every margin; and the serialized form omits
the `margin` key exactly when the node's margin is `0`, so a node with
margin `0` serializes identically to one whose margin was never set. -/
theorem c3_roundtrip_amended (t : LayoutNode)
    (hInt : t.getIntegrityError = none)
    (hRoot : LayoutNode.notWireMagic t.percentage = true) :
    LayoutNode.structEqB (LayoutNode.fromJSON (LayoutNode.toJSON t)) t = true ∧
    ((LayoutNode.toJSON t).marginJ = none ↔ t.margin = 0) := by
  refine ⟨LayoutNode.roundtrip_aux t hRoot hInt, ?_⟩
  rcases t with ⟨d, cs⟩
  unfold LayoutNode.toJSON
  simp only [LayoutNode.JsonNode.marginJ, LayoutNode.margin, LayoutNode.data_mk]
  by_cases hm : d.margin = 0 <;> simp [hm]

/-- Witness for C3 (amended) on the default 2x2 layout. -/
theorem c3_roundtrip_amended_witness :
    LayoutNode.getIntegrityError LayoutOf2x2 = none ∧
    LayoutNode.notWireMagic LayoutOf2x2.percentage = true ∧
    LayoutNode.structEqB (LayoutNode.fromJSON (LayoutNode.toJSON LayoutOf2x2)) LayoutOf2x2
      = true :=
  ⟨by decide, by decide, (c3_roundtrip_amended LayoutOf2x2 (by decide) (by decide)).1⟩

/-! ## C7: insertChild ordering on the heap -/

namespace LayoutNode

theorem idxOf?_isSome {α : Type} [DecidableEq α] :
    ∀ (l : List α) (x : α), (idxOf? l x).isSome = true ↔ x ∈ l
  | [], x => by simp [idxOf?]
  | a :: as, x => by
    by_cases h : a = x
    · simp [idxOf?, h]
    · simp only [idxOf?, if_neg h, List.mem_cons]
      cases hi : idxOf? as x with
      | none =>
        have h2 := idxOf?_isSome as x
        rw [hi] at h2
        simp only [Option.isSome_none, Bool.false_eq_true, false_iff] at h2
        simp only [Option.map_none', Option.isSome_none, Bool.false_eq_true, false_iff]
        rintro (rfl | hx)
        · exact h rfl
        · exact h2 hx
      | some k =>
        have h2 := idxOf?_isSome as x
        rw [hi] at h2
        simp only [Option.isSome_some, true_iff] at h2
        simp [h2]

theorem insertAt_self_mem {α : Type} : ∀ (i : ℕ) (x : α) (l : List α), x ∈ insertAt i x l
  | 0, x, l => by simp [insertAt]
  | i + 1, x, [] => by simp [insertAt]
  | i + 1, x, b :: bs => by
    simp only [insertAt, List.mem_cons]
    exact Or.inr (insertAt_self_mem i x bs)

theorem insertAt_mem_of_mem {α : Type} :
    ∀ (i : ℕ) (x y : α) (l : List α), y ∈ l → y ∈ insertAt i x l
  | 0, x, y, l, h => by simp [insertAt, h]
  | i + 1, x, y, [], h => by simp at h
  | i + 1, x, y, b :: bs, h => by
    simp only [insertAt, List.mem_cons]
    rcases List.mem_cons.mp h with rfl | hy
    · exact Or.inl rfl
    · exact Or.inr (insertAt_mem_of_mem i x y bs hy)

theorem insertAt_getLast?_of_lt {α : Type} :
    ∀ (i : ℕ) (x : α) (l : List α), i < l.length → (insertAt i x l).getLast? = l.getLast?
  | 0, x, l, h => by
    cases l with
    | nil => simp at h
    | cons b bs => simp [insertAt, List.getLast?_cons_cons]
  | i + 1, x, [], h => by simp at h
  | i + 1, x, b :: bs, h => by
    have hlt : i < bs.length := by simpa using h
    simp only [insertAt]
    rw [List.getLast?_cons, List.getLast?_cons,
      insertAt_getLast?_of_lt i x bs hlt]

theorem insertAt_map {α β : Type} (f : α → β) :
    ∀ (i : ℕ) (x : α) (l : List α), (insertAt i x l).map f = insertAt i (f x) (l.map f)
  | 0, x, l => by simp [insertAt]
  | i + 1, x, [] => by simp [insertAt]
  | i + 1, x, b :: bs => by
    simp only [insertAt, List.map_cons]
    rw [insertAt_map f i x bs]

theorem findIdx?_congr {α : Type} (p q : α → Bool) :
    ∀ (l : List α), (∀ a ∈ l, p a = q a) → l.findIdx? p = l.findIdx? q
  | [], _ => rfl
  | a :: as, h => by
    rw [List.findIdx?_cons, List.findIdx?_cons, h a (by simp), List.findIdx?_succ,
      List.findIdx?_succ,
      findIdx?_congr p q as (fun x hx => h x (List.mem_cons_of_mem a hx))]

theorem insertAt_subset {α : Type} :
    ∀ (i : ℕ) (x y : α) (l : List α), y ∈ insertAt i x l → y ∈ l ∨ y = x
  | 0, x, y, l, h => by
    rcases List.mem_cons.mp (by simpa [insertAt] using h) with rfl | hy
    · exact Or.inr rfl
    · exact Or.inl hy
  | i + 1, x, y, [], h => by
    simp only [insertAt, List.mem_singleton] at h
    exact Or.inr h
  | i + 1, x, y, b :: bs, h => by
    simp only [insertAt, List.mem_cons] at h
    rcases h with rfl | hy
    · exact Or.inl (by simp)
    · rcases insertAt_subset i x y bs hy with h1 | rfl
      · exact Or.inl (List.mem_cons_of_mem b h1)
      · exact Or.inr rfl

theorem insertAt_length {α : Type} :
    ∀ (i : ℕ) (x : α) (l : List α), (insertAt i x l).length = l.length + 1
  | 0, x, l => by simp [insertAt]
  | i + 1, x, [] => by simp [insertAt]
  | i + 1, x, b :: bs => by
    simp only [insertAt, List.length_cons]
    rw [insertAt_length i x bs]

end LayoutNode

namespace Store

theorem absGT_flip (a b : Perc) (h : Perc.absGT a b = true) : absLEb b a = true := by
  cases a <;> cases b <;> simp_all [Perc.absGT, absLEb] <;> exact le_of_lt h

theorem absGT_false_flip (a b : Perc) (ha : a ≠ Perc.undef) (hb : b ≠ Perc.undef)
    (h : Perc.absGT a b = false) : absLEb a b = true := by
  cases a <;> cases b <;> simp_all [Perc.absGT, absLEb]

theorem sortedAbsB_insertAt :
    ∀ (ps : List Perc) (pc : Perc) (i : ℕ),
    sortedAbsB ps = true → (∀ p ∈ ps, p ≠ Perc.undef) → pc ≠ Perc.undef →
    ps.findIdx? (fun p => Perc.absGT p pc) = some i →
    sortedAbsB (LayoutNode.insertAt i pc ps) = true
  | [], pc, i, _, _, _, hidx => by simp at hidx
  | a :: rest, pc, i, hs, hu, hpc, hidx => by
    rw [List.findIdx?_cons] at hidx
    by_cases hga : Perc.absGT a pc = true
    · rw [if_pos hga] at hidx
      cases hidx
      simp only [sortedAbsB, Bool.and_eq_true] at hs
      simp only [LayoutNode.insertAt, sortedAbsB, List.head?_cons, Bool.and_eq_true]
      exact ⟨absGT_flip a pc hga, hs⟩
    · rw [if_neg hga, List.findIdx?_succ] at hidx
      rcases Option.map_eq_some'.mp hidx with ⟨j, hj, rfl⟩
      simp only [LayoutNode.insertAt, sortedAbsB, Bool.and_eq_true]
      have hrest : sortedAbsB rest = true := by
        simp only [sortedAbsB, Bool.and_eq_true] at hs
        exact hs.2
      constructor
      · cases j with
        | zero =>
          cases rest with
          | nil => simp at hj
          | cons r rs =>
            simp only [LayoutNode.insertAt, List.head?_cons]
            exact absGT_false_flip a pc (hu a (by simp)) hpc (by simpa using hga)
        | succ k =>
          cases rest with
          | nil => simp at hj
          | cons r rs =>
            simp only [LayoutNode.insertAt, List.head?_cons]
            simp only [sortedAbsB, List.head?_cons, Bool.and_eq_true] at hs
            exact hs.1
      · exact sortedAbsB_insertAt rest pc j hrest
          (fun p hp => hu p (List.mem_cons_of_mem a hp)) hpc hj

end Store

namespace Store

theorem insertChild_noop (t : Store) (a b : ℕ)
    (h : b ∈ (t a).children ∨ (t b).percentage = LastNodeXPercentage ∨
      (t b).percentage = LastNodeYPercentage) :
    t.insertChild a b = t := by
  unfold insertChild
  by_cases hc : (LayoutNode.idxOf? (t a).children b).isSome = true
  · rw [if_pos hc]
  · rw [if_neg hc, if_pos]
    rcases h with h | h
    · exact absurd ((LayoutNode.idxOf?_isSome (t a).children b).mpr h) hc
    · exact h

/-- One successful `insertChild`: the child's parent is set to the
receiver, the children grow by exactly that child at the insertion index,
the ordering and sentinel-last invariants survive, and no percentage
anywhere changes. -/
theorem insertChild_step (t : Store) (self c : ℕ) (q : ℚ)
    (hq : (t c).percentage = Perc.fin q)
    (hSorted : sortedAbsChildren t self = true)
    (hLast : lastChildSentinelB t self = true)
    (hUndef : ∀ d ∈ (t self).children, (t d).percentage ≠ Perc.undef) :
    sortedAbsChildren (t.insertChild self c) self = true ∧
    lastChildSentinelB (t.insertChild self c) self = true ∧
    (∀ d ∈ (t self).children, d ∈ ((t.insertChild self c) self).children) ∧
    c ∈ ((t.insertChild self c) self).children ∧
    (∀ x, ((t.insertChild self c) x).percentage = (t x).percentage) ∧
    (((t.insertChild self c) c).parent = some self ∨ c ∈ (t self).children) ∧
    (∀ x, (t x).parent = some self → ((t.insertChild self c) x).parent = some self) ∧
    (∀ d ∈ ((t.insertChild self c) self).children, d ∈ (t self).children ∨ d = c) := by
  by_cases hmem : c ∈ (t self).children
  · rw [insertChild_noop t self c (Or.inl hmem)]
    exact ⟨hSorted, hLast, fun d hd => hd, hmem, fun x => rfl, Or.inr hmem,
      fun x hx => hx, fun d hd => Or.inl hd⟩
  · -- the successful splice
    have hguard1 : ¬ ((LayoutNode.idxOf? (t self).children c).isSome = true) :=
      fun hx => hmem ((LayoutNode.idxOf?_isSome _ _).mp hx)
    have hguard2 : ¬ ((t c).percentage = LastNodeXPercentage ∨
        (t c).percentage = LastNodeYPercentage) := by
      rw [hq]
      rintro (h | h) <;> exact Perc.noConfusion h
    have hE : t.insertChild self c =
        (t.set c { t c with parent := some self }).set self
          { (t.set c { t c with parent := some self }) self with
            children := LayoutNode.insertAt
              (insertionIndex (t.set c { t c with parent := some self }) self c) c
              ((t.set c { t c with parent := some self }) self).children } := by
      unfold insertChild
      rw [if_neg hguard1, if_neg hguard2]
    -- the intermediate parent-write changes no percentage and no children
    set s1 := t.set c { t c with parent := some self } with hs1
    have hs1perc : ∀ x, (s1 x).percentage = (t x).percentage := by
      intro x
      by_cases hx : x = c
      · subst hx; simp [hs1, Store.set]
      · simp [hs1, Store.set, hx]
    have hs1ch : ∀ x, (s1 x).children = (t x).children := by
      intro x
      by_cases hx : x = c
      · subst hx; simp [hs1, Store.set]
      · simp [hs1, Store.set, hx]
    -- the insertion index, expressed over the original store
    have hpred : ∀ d ∈ (s1 self).children,
        (Perc.absGT (s1 d).percentage (s1 c).percentage)
          = (Perc.absGT (t d).percentage (t c).percentage) := by
      intro d _
      rw [hs1perc d, hs1perc c]
    have hidx0 : insertionIndex s1 self c =
        match (t self).children.findIdx?
            (fun d => Perc.absGT (t d).percentage (t c).percentage) with
        | some i => i
        | none => (t self).children.length - 1 := by
      unfold insertionIndex
      rw [hs1ch self, LayoutNode.findIdx?_congr _ _ (t self).children
        (fun d hd => hpred d (by rwa [hs1ch self]))]
    -- the sentinel last child makes findIdx? hit
    obtain ⟨L, hL, hLs⟩ : ∃ L, (t self).children.getLast? = some L ∧
        ((t L).percentage = LastNodeXPercentage ∨ (t L).percentage = LastNodeYPercentage) := by
      unfold lastChildSentinelB at hLast
      split at hLast
      · next c0 hc0 => exact ⟨c0, hc0, of_decide_eq_true hLast⟩
      · exact Bool.noConfusion hLast
    have hLmem : L ∈ (t self).children := List.mem_of_getLast?_eq_some hL
    have hLgt : Perc.absGT (t L).percentage (t c).percentage = true := by
      rw [hq]
      rcases hLs with h | h <;> rw [h] <;> rfl
    have hsome : ((t self).children.findIdx?
        (fun d => Perc.absGT (t d).percentage (t c).percentage)).isSome = true := by
      cases hf : (t self).children.findIdx?
          (fun d => Perc.absGT (t d).percentage (t c).percentage) with
      | some i => rfl
      | none =>
        rw [List.findIdx?_eq_none_iff] at hf
        have := hf L hLmem
        simp only [hLgt] at this
        exact Bool.noConfusion this
    obtain ⟨i, hi⟩ := Option.isSome_iff_exists.mp hsome
    have hilt : i < (t self).children.length := by
      obtain ⟨hlen, -, -⟩ := List.findIdx?_eq_some_iff_getElem.mp hi
      exact hlen
    have hidx : insertionIndex s1 self c = i := by rw [hidx0, hi]
    -- the final children list
    have hch : ((t.insertChild self c) self).children =
        LayoutNode.insertAt i c (t self).children := by
      rw [hE]
      simp only [Store.set_same]
      rw [hidx, hs1ch self]
    have hperc : ∀ x, ((t.insertChild self c) x).percentage = (t x).percentage := by
      intro x
      rw [hE]
      by_cases hx : x = self
      · rw [hx, Store.set_same]
        exact hs1perc self
      · rw [Store.set_other _ _ _ _ hx]
        exact hs1perc x
    refine ⟨?_, ?_, ?_, ?_, hperc, ?_, ?_, ?_⟩
    · -- sortedness
      unfold sortedAbsChildren
      rw [hch]
      have hmap : (LayoutNode.insertAt i c (t self).children).map
          (fun d => ((t.insertChild self c) d).percentage)
          = LayoutNode.insertAt i (Perc.fin q)
              ((t self).children.map (fun d => (t d).percentage)) := by
        rw [LayoutNode.insertAt_map, hperc c, hq,
          show (fun d => ((t.insertChild self c) d).percentage)
            = (fun d => (t d).percentage) from funext hperc]
      rw [hmap]
      apply sortedAbsB_insertAt _ _ _ hSorted
      · intro p hp
        rcases List.mem_map.mp hp with ⟨d, hd, rfl⟩
        exact hUndef d hd
      · exact Perc.noConfusion
      · rw [List.findIdx?_map]
        have : ((fun p => Perc.absGT p (Perc.fin q)) ∘ fun d => (t d).percentage)
            = fun d => Perc.absGT (t d).percentage (t c).percentage := by
          funext d
          rw [hq]
          rfl
        rw [this]
        exact hi
    · -- the sentinel last child survives
      simp only [lastChildSentinelB, hch,
        LayoutNode.insertAt_getLast?_of_lt i c (t self).children hilt, hL, hperc L]
      exact decide_eq_true hLs
    · intro d hd
      rw [hch]
      exact LayoutNode.insertAt_mem_of_mem i c d (t self).children hd
    · rw [hch]
      exact LayoutNode.insertAt_self_mem i c (t self).children
    · -- the parent pointer
      left
      rw [hE]
      by_cases hx : c = self
      · rw [hx, Store.set_same]
        show (s1 self).parent = some self
        rw [hs1, hx, Store.set_same]
      · rw [Store.set_other _ _ _ _ hx, hs1, Store.set_same]
    · intro x hx
      rw [hE]
      by_cases hxs : x = self
      · rw [hxs, Store.set_same]
        show (s1 self).parent = some self
        rw [hs1]
        by_cases hxc : self = c
        · rw [hxc, Store.set_same]
        · rw [Store.set_other _ _ _ _ hxc]
          rw [hxs] at hx
          exact hx
      · rw [Store.set_other _ _ _ _ hxs, hs1]
        by_cases hxc : x = c
        · rw [hxc, Store.set_same]
        · rw [Store.set_other _ _ _ _ hxc]
          exact hx
    · intro d hd
      rw [hch] at hd
      exact LayoutNode.insertAt_subset i c d (t self).children hd

end Store

namespace Store

/-- Invariant preservation along any sequence of `insertChild` calls. -/
theorem insertFold_aux (s0 : Store) (self : ℕ) :
    ∀ (ins : List ℕ) (t : Store),
    (∀ j, (t j).percentage = (s0 j).percentage) →
    sortedAbsChildren t self = true →
    lastChildSentinelB t self = true →
    (∀ d ∈ (t self).children, (t d).percentage ≠ Perc.undef) →
    (∀ c ∈ ins, ∃ q, (s0 c).percentage = Perc.fin q) →
    sortedAbsChildren (ins.foldl (fun u c => u.insertChild self c) t) self = true ∧
    lastChildSentinelB (ins.foldl (fun u c => u.insertChild self c) t) self = true ∧
    (∀ d ∈ (t self).children, d ∈ ((ins.foldl (fun u c => u.insertChild self c) t) self).children) ∧
    (∀ c ∈ ins, c ∈ ((ins.foldl (fun u c => u.insertChild self c) t) self).children ∧
      (((ins.foldl (fun u c => u.insertChild self c) t) c).parent = some self ∨
        c ∈ (t self).children)) ∧
    (∀ x, (t x).parent = some self →
      ((ins.foldl (fun u c => u.insertChild self c) t) x).parent = some self)
  | [], t, hPerc, hSorted, hLast, hUndef, _ => by
    exact ⟨hSorted, hLast, fun d hd => hd, by simp, fun x hx => hx⟩
  | c :: rest, t, hPerc, hSorted, hLast, hUndef, hIns => by
    obtain ⟨q, hq0⟩ := hIns c (by simp)
    have hq : (t c).percentage = Perc.fin q := by rw [hPerc c, hq0]
    obtain ⟨S1, S2, S3, S4, S5, S6, S7, S8⟩ := insertChild_step t self c q hq hSorted hLast hUndef
    have hPerc1 : ∀ j, ((t.insertChild self c) j).percentage = (s0 j).percentage := by
      intro j
      rw [S5 j, hPerc j]
    have hUndef1 : ∀ d ∈ ((t.insertChild self c) self).children,
        ((t.insertChild self c) d).percentage ≠ Perc.undef := by
      intro d hd
      rw [S5 d]
      rcases S8 d hd with h1 | rfl
      · exact hUndef d h1
      · rw [hq]
        exact Perc.noConfusion
    have hIns1 : ∀ c' ∈ rest, ∃ q', (s0 c').percentage = Perc.fin q' :=
      fun c' hc' => hIns c' (List.mem_cons_of_mem c hc')
    obtain ⟨I1, I2, I3, I4, I5⟩ :=
      insertFold_aux s0 self rest (t.insertChild self c) hPerc1 S1 S2 hUndef1 hIns1
    rw [List.foldl_cons]
    refine ⟨I1, I2, ?_, ?_, ?_⟩
    · intro d hd
      exact I3 d (S3 d hd)
    · intro c' hc'
      rcases List.mem_cons.mp hc' with rfl | hc''
      · refine ⟨I3 c' S4, ?_⟩
        rcases S6 with h1 | h1
        · exact Or.inl (I5 c' h1)
        · exact Or.inr h1
      · obtain ⟨m1, m2⟩ := I4 c' hc''
        refine ⟨m1, ?_⟩
        rcases m2 with h1 | h1
        · exact Or.inl h1
        · rcases S8 c' h1 with h2 | rfl
          · exact Or.inr h2
          · rcases S6 with h3 | h3
            · exact Or.inl (I5 c' h3)
            · exact Or.inr h3
    · intro x hx
      exact I5 x (S7 x hx)

end Store

/-- C7: on a heap node whose children are ordered weakly ascending by
absolute percentage and end with a sentinel last child, any sequence of
`insertChild` calls of children with finite percentages in `[-1, 1]`
keeps the children so ordered and sentinel-terminated; every child of the
sequence ends up in the children list with its `parent` field set to the
receiver (unless it was already a child, in which case that call — like
any call whose argument is already present or carries a sentinel
percentage — leaves the store entirely unchanged). -/
theorem c7_insertChild_keeps_order (s : Store) (self : ℕ) (ins : List ℕ)
    (hSorted : Store.sortedAbsChildren s self = true)
    (hLast : Store.lastChildSentinelB s self = true)
    (hUndef : ∀ d ∈ (s self).children, (s d).percentage ≠ Perc.undef)
    (hIns : ∀ c ∈ ins, ∃ q, (s c).percentage = Perc.fin q ∧ |q| ≤ 1) :
    Store.sortedAbsChildren (ins.foldl (fun u c => u.insertChild self c) s) self = true ∧
    Store.lastChildSentinelB (ins.foldl (fun u c => u.insertChild self c) s) self = true ∧
    (∀ c ∈ ins, c ∈ ((ins.foldl (fun u c => u.insertChild self c) s) self).children ∧
      (((ins.foldl (fun u c => u.insertChild self c) s) c).parent = some self ∨
        c ∈ (s self).children)) ∧
    (∀ (t : Store) (a b : ℕ), (b ∈ (t a).children ∨
        (t b).percentage = LastNodeXPercentage ∨ (t b).percentage = LastNodeYPercentage) →
      t.insertChild a b = t) := by
  obtain ⟨I1, I2, -, I4, -⟩ := Store.insertFold_aux s self ins s (fun j => rfl) hSorted hLast
    hUndef (fun c hc => (hIns c hc).elim fun q hq => ⟨q, hq.1⟩)
  exact ⟨I1, I2, I4, Store.insertChild_noop⟩

/-- Witness for C7: a node `0` with children `[1, 2]` (percentages `1/4`
and the column sentinel), inserting fresh nodes `3` (at `1/2`) and `4`
(at `1/10`). -/
theorem c7_insertChild_keeps_order_witness :
    (Store.sortedAbsChildren
        (fun i => if i = 0 then { percentage := Perc.fin 0, children := [1, 2] }
          else if i = 1 then { percentage := Perc.fin (1/4) }
          else if i = 2 then { percentage := Perc.pinf }
          else if i = 3 then { percentage := Perc.fin (1/2) }
          else ({ percentage := Perc.fin (1/10) } : NodeRec)) 0 = true) ∧
    Store.sortedAbsChildren
      (([3, 4] : List ℕ).foldl (fun u c => u.insertChild 0 c)
        (fun i => if i = 0 then { percentage := Perc.fin 0, children := [1, 2] }
          else if i = 1 then { percentage := Perc.fin (1/4) }
          else if i = 2 then { percentage := Perc.pinf }
          else if i = 3 then { percentage := Perc.fin (1/2) }
          else ({ percentage := Perc.fin (1/10) } : NodeRec))) 0 = true :=
  ⟨by decide,
    (c7_insertChild_keeps_order
      (fun i => if i = 0 then { percentage := Perc.fin 0, children := [1, 2] }
        else if i = 1 then { percentage := Perc.fin (1/4) }
        else if i = 2 then { percentage := Perc.pinf }
        else if i = 3 then { percentage := Perc.fin (1/2) }
        else ({ percentage := Perc.fin (1/10) } : NodeRec)) 0 [3, 4]
      (by decide) (by decide) (by decide)
      (by
        intro c hc
        simp only [List.mem_cons, List.not_mem_nil, or_false] at hc
        rcases hc with rfl | rfl
        · exact ⟨1/2, by decide, by decide⟩
        · exact ⟨1/10, by decide, by decide⟩)).1⟩

/-! ## C2: children tile the parent after calculateRects -/

namespace LayoutNode

theorem calcNode_percentage : ∀ (t : LayoutNode) (x y w h : ℚ) (d : Option Rect),
    (calcNode t x y w h d).percentage = t.percentage
  | mk dd cs, x, y, w, h, d => by
    unfold calcNode
    split <;> rfl

theorem calcNode_rect : ∀ (t : LayoutNode) (x y w h : ℚ) (d : Option Rect),
    (calcNode t x y w h d).rect = ⟨x, y, w, h⟩
  | mk dd cs, x, y, w, h, d => by
    unfold calcNode
    split <;> rfl

theorem calcChildren_length : ∀ (cs : List LayoutNode) (px py x y w h : ℚ) (disp : Rect),
    (calcChildren cs px py x y w h disp).length = cs.length
  | [], _, _, _, _, _, _, _ => rfl
  | c :: rest, px, py, x, y, w, h, disp => by
    unfold calcChildren
    split
    · next hr =>
      split <;> simp [List.length_eq_zero.mp hr]
    · next hr =>
      split
      · simp [calcChildren_length rest]
      · simp [calcChildren_length rest]

theorem calcChildren_percentage :
    ∀ (cs : List LayoutNode) (px py x y w h : ℚ) (disp : Rect),
    (calcChildren cs px py x y w h disp).map percentage = cs.map percentage
  | [], _, _, _, _, _, _, _ => rfl
  | c :: rest, px, py, x, y, w, h, disp => by
    unfold calcChildren
    split
    · next hr =>
      rw [List.length_eq_zero.mp hr]
      split <;> simp [calcNode_percentage]
    · next hr =>
      split
      · simp [calcNode_percentage, calcChildren_percentage rest]
      · simp [calcNode_percentage, calcChildren_percentage rest]

theorem axis_AxisX (n : LayoutNode) (h : n.axis = AxisX) :
    n.percentage.isColumnB = true := by
  unfold axis isColumn at h
  by_cases hc : n.percentage.isColumnB
  · exact hc
  · rw [if_neg (by simp [hc])] at h
    exact absurd h (by simp [AxisX, AxisY])

theorem axis_AxisY (n : LayoutNode) (h : n.axis = AxisY) :
    n.percentage.isColumnB = false := by
  unfold axis isColumn at h
  by_cases hc : n.percentage.isColumnB
  · rw [if_pos (by simp [hc])] at h
    exact absurd h (by simp [AxisX, AxisY])
  · simp [hc]

theorem axis_of_percentage_eq {c c' : LayoutNode}
    (h : c.percentage = c'.percentage) : c.axis = c'.axis := by
  unfold axis isColumn
  rw [h]

theorem axis_of_map_percentage {l l' : List LayoutNode}
    (h : l.map percentage = l'.map percentage) (a : ℕ)
    (hl : ∀ c ∈ l, c.axis = a) : ∀ c ∈ l', c.axis = a := by
  intro c' hc'
  have hmem : c'.percentage ∈ l.map percentage := by
    rw [h]
    exact List.mem_map_of_mem percentage hc'
  rcases List.mem_map.mp hmem with ⟨c, hc, hpc⟩
  rw [axis_of_percentage_eq hpc.symm]
  exact hl c hc

theorem calcChildren_ne_nil (cs : List LayoutNode) (px py x y w h : ℚ) (disp : Rect)
    (hne : cs ≠ []) : calcChildren cs px py x y w h disp ≠ [] := by
  intro h0
  have := calcChildren_length cs px py x y w h disp
  rw [h0] at this
  exact hne (List.length_eq_zero.mp this.symm)

theorem calcChildren_tilesX :
    ∀ (cs : List LayoutNode) (px py x y w h : ℚ) (disp : Rect),
    (∀ c ∈ cs, c.axis = AxisX) → cs ≠ [] →
    (∀ c, (calcChildren cs px py x y w h disp).head? = some c → c.rect.x = px) ∧
    List.Chain' (fun a b => b.rect.x = a.rect.x + a.rect.width)
      (calcChildren cs px py x y w h disp) ∧
    (∀ c, (calcChildren cs px py x y w h disp).getLast? = some c →
      c.rect.x + c.rect.width = x + w) ∧
    (∀ c ∈ calcChildren cs px py x y w h disp, c.rect.y = y ∧ c.rect.height = h)
  | [], _, _, _, _, _, _, _, _, hne => absurd rfl hne
  | c :: rest, px, py, x, y, w, h, disp, hax, _ => by
    have hc : c.percentage.isColumnB = true := axis_AxisX c (hax c (by simp))
    unfold calcChildren
    by_cases hr : rest.length = 0
    · rw [if_pos hr, if_pos hc]
      refine ⟨?_, ?_, ?_, ?_⟩
      · intro z hz
        simp only [List.head?_cons, Option.some.injEq] at hz
        rw [← hz, calcNode_rect]
      · simp
      · intro z hz
        simp only [List.getLast?_singleton, Option.some.injEq] at hz
        rw [← hz, calcNode_rect]
        ring
      · intro z hz
        simp only [List.mem_singleton] at hz
        rw [hz, calcNode_rect]
        exact ⟨rfl, rfl⟩
    · rw [if_neg hr, if_pos hc]
      have hrne : rest ≠ [] := fun h0 => hr (by simp [h0])
      obtain ⟨H1, H2, H3, H4⟩ := calcChildren_tilesX rest
        (disp.x + edgeOffset disp.width c.percentage) py x y w h disp
        (fun d hd => hax d (List.mem_cons_of_mem c hd)) hrne
      have houtne := calcChildren_ne_nil rest
        (disp.x + edgeOffset disp.width c.percentage) py x y w h disp hrne
      refine ⟨?_, ?_, ?_, ?_⟩
      · intro z hz
        simp only [List.head?_cons, Option.some.injEq] at hz
        rw [← hz, calcNode_rect]
      · rw [List.chain'_cons']
        refine ⟨?_, H2⟩
        intro b hb
        rw [H1 b hb, calcNode_rect]
        show _ = px + (disp.x + edgeOffset disp.width c.percentage - px)
        ring
      · intro z hz
        rw [List.getLast?_cons] at hz
        simp only [Option.some.injEq] at hz
        subst hz
        cases hL : (calcChildren rest (disp.x + edgeOffset disp.width c.percentage)
            py x y w h disp).getLast? with
        | none => exact absurd (List.getLast?_eq_none_iff.mp hL) houtne
        | some u =>
          rw [Option.getD_some]
          exact H3 u hL
      · intro z hz
        rcases List.mem_cons.mp hz with rfl | hz'
        · rw [calcNode_rect]
          exact ⟨rfl, rfl⟩
        · exact H4 z hz'

theorem calcChildren_tilesY :
    ∀ (cs : List LayoutNode) (px py x y w h : ℚ) (disp : Rect),
    (∀ c ∈ cs, c.axis = AxisY) → cs ≠ [] →
    (∀ c, (calcChildren cs px py x y w h disp).head? = some c → c.rect.y = py) ∧
    List.Chain' (fun a b => b.rect.y = a.rect.y + a.rect.height)
      (calcChildren cs px py x y w h disp) ∧
    (∀ c, (calcChildren cs px py x y w h disp).getLast? = some c →
      c.rect.y + c.rect.height = y + h) ∧
    (∀ c ∈ calcChildren cs px py x y w h disp, c.rect.x = x ∧ c.rect.width = w)
  | [], _, _, _, _, _, _, _, _, hne => absurd rfl hne
  | c :: rest, px, py, x, y, w, h, disp, hax, _ => by
    have hc : c.percentage.isColumnB = false := axis_AxisY c (hax c (by simp))
    unfold calcChildren
    by_cases hr : rest.length = 0
    · rw [if_pos hr, if_neg (by simp [hc])]
      refine ⟨?_, ?_, ?_, ?_⟩
      · intro z hz
        simp only [List.head?_cons, Option.some.injEq] at hz
        rw [← hz, calcNode_rect]
      · simp
      · intro z hz
        simp only [List.getLast?_singleton, Option.some.injEq] at hz
        rw [← hz, calcNode_rect]
        ring
      · intro z hz
        simp only [List.mem_singleton] at hz
        rw [hz, calcNode_rect]
        exact ⟨rfl, rfl⟩
    · rw [if_neg hr, if_neg (by simp [hc])]
      have hrne : rest ≠ [] := fun h0 => hr (by simp [h0])
      obtain ⟨H1, H2, H3, H4⟩ := calcChildren_tilesY rest
        px (disp.y + edgeOffset disp.height c.percentage) x y w h disp
        (fun d hd => hax d (List.mem_cons_of_mem c hd)) hrne
      have houtne := calcChildren_ne_nil rest
        px (disp.y + edgeOffset disp.height c.percentage) x y w h disp hrne
      refine ⟨?_, ?_, ?_, ?_⟩
      · intro z hz
        simp only [List.head?_cons, Option.some.injEq] at hz
        rw [← hz, calcNode_rect]
      · rw [List.chain'_cons']
        refine ⟨?_, H2⟩
        intro b hb
        rw [H1 b hb, calcNode_rect]
        show _ = py + (disp.y + edgeOffset disp.height c.percentage - py)
        ring
      · intro z hz
        rw [List.getLast?_cons] at hz
        simp only [Option.some.injEq] at hz
        subst hz
        cases hL : (calcChildren rest px (disp.y + edgeOffset disp.height c.percentage)
            x y w h disp).getLast? with
        | none => exact absurd (List.getLast?_eq_none_iff.mp hL) houtne
        | some u =>
          rw [Option.getD_some]
          exact H3 u hL
      · intro z hz
        rcases List.mem_cons.mp hz with rfl | hz'
        · rw [calcNode_rect]
          exact ⟨rfl, rfl⟩
        · exact H4 z hz'

end LayoutNode

namespace LayoutNode

mutual

theorem calc_tiles_node : ∀ (t : LayoutNode) (x y w h : ℚ) (dopt : Option Rect),
    ∀ n ∈ subtrees (calcNode t x y w h dopt), n.children ≠ [] →
    ((∀ c ∈ n.children, c.axis = AxisX) → tilesX n) ∧
    ((∀ c ∈ n.children, c.axis = AxisY) → tilesY n)
  | mk d cs, x, y, w, h, dopt, n, hn, hne => by
    unfold calcNode at hn
    by_cases hcs : cs.length = 0
    · rw [if_pos hcs] at hn
      have hnil := List.length_eq_zero.mp hcs
      subst hnil
      unfold subtrees subtreesList at hn
      simp only [List.mem_singleton] at hn
      subst hn
      exact absurd rfl hne
    · rw [if_neg hcs] at hn
      unfold subtrees at hn
      have hcsne : cs ≠ [] := fun h0 => hcs (by simp [h0])
      rcases List.mem_cons.mp hn with rfl | hn'
      · constructor
        · intro hax
          have haxin : ∀ c ∈ cs, c.axis = AxisX :=
            axis_of_map_percentage
              (calcChildren_percentage cs x y x y w h (dopt.getD ⟨x, y, w, h⟩)) AxisX hax
          obtain ⟨H1, H2, H3, H4⟩ := calcChildren_tilesX cs x y x y w h
            (dopt.getD ⟨x, y, w, h⟩) haxin hcsne
          exact ⟨H1, H2, H3, H4⟩
        · intro hax
          have haxin : ∀ c ∈ cs, c.axis = AxisY :=
            axis_of_map_percentage
              (calcChildren_percentage cs x y x y w h (dopt.getD ⟨x, y, w, h⟩)) AxisY hax
          obtain ⟨H1, H2, H3, H4⟩ := calcChildren_tilesY cs x y x y w h
            (dopt.getD ⟨x, y, w, h⟩) haxin hcsne
          exact ⟨H1, H2, H3, H4⟩
      · exact calc_tiles_list cs x y x y w h (dopt.getD ⟨x, y, w, h⟩) n hn' hne

theorem calc_tiles_list : ∀ (cs : List LayoutNode) (px py x y w h : ℚ) (disp : Rect),
    ∀ n ∈ subtreesList (calcChildren cs px py x y w h disp), n.children ≠ [] →
    ((∀ c ∈ n.children, c.axis = AxisX) → tilesX n) ∧
    ((∀ c ∈ n.children, c.axis = AxisY) → tilesY n)
  | [], px, py, x, y, w, h, disp, n, hn, _ => by
    unfold calcChildren subtreesList at hn
    simp at hn
  | c :: rest, px, py, x, y, w, h, disp, n, hn, hne => by
    unfold calcChildren at hn
    by_cases hr : rest.length = 0
    · rw [if_pos hr] at hn
      by_cases hcol : c.percentage.isColumnB = true
      · rw [if_pos hcol] at hn
        simp only [subtreesList, List.append_nil] at hn
        exact calc_tiles_node c px y (x + w - px) h (some disp) n hn hne
      · rw [if_neg hcol] at hn
        simp only [subtreesList, List.append_nil] at hn
        exact calc_tiles_node c x py w (y + h - py) (some disp) n hn hne
    · rw [if_neg hr] at hn
      by_cases hcol : c.percentage.isColumnB = true
      · rw [if_pos hcol] at hn
        simp only [subtreesList] at hn
        rcases List.mem_append.mp hn with h1 | h1
        · exact calc_tiles_node c px y
            (disp.x + edgeOffset disp.width c.percentage - px) h (some disp) n h1 hne
        · exact calc_tiles_list rest
            (disp.x + edgeOffset disp.width c.percentage) py x y w h disp n h1 hne
      · rw [if_neg hcol] at hn
        simp only [subtreesList] at hn
        rcases List.mem_append.mp hn with h1 | h1
        · exact calc_tiles_node c x py w
            (disp.y + edgeOffset disp.height c.percentage - py) (some disp) n h1 hne
        · exact calc_tiles_list rest
            px (disp.y + edgeOffset disp.height c.percentage) x y w h disp n h1 hne

end

end LayoutNode

namespace LayoutNode

/-- The integrity check never looks at the node's own data: it depends
only on the children's percentages and on the children's own integrity. -/
theorem getIntegrityError_congr (d d' : NodeData) (cs cs' : List LayoutNode)
    (hp : cs.map percentage = cs'.map percentage)
    (hl : integrityErrorList cs = integrityErrorList cs') :
    getIntegrityError (mk d cs) = getIntegrityError (mk d' cs') := by
  have hlen : cs.length = cs'.length := by
    have h := congrArg List.length hp
    simpa using h
  have hdrop : cs.dropLast.map percentage = cs'.dropLast.map percentage := by
    rw [List.map_dropLast, List.map_dropLast, hp]
  have h1 : ∀ l : List LayoutNode,
      (l.any fun c => percBad c.percentage) = (l.map percentage).any percBad := by
    intro l
    induction l with
    | nil => rfl
    | cons c rest ih => simp only [List.any_cons, List.map_cons, ih]
  have hany : (cs.dropLast.any fun c => percBad c.percentage)
      = (cs'.dropLast.any fun c => percBad c.percentage) := by
    rw [h1, h1, hdrop]
  have h2 : cs.getLast?.map percentage = cs'.getLast?.map percentage := by
    rw [← List.getLast?_map, ← List.getLast?_map, hp]
  have hlast : (cs.getLast?.elim false fun c => notSentinel c.percentage)
      = (cs'.getLast?.elim false fun c => notSentinel c.percentage) := by
    cases hc : cs.getLast? with
    | none =>
      cases hc' : cs'.getLast? with
      | none => rfl
      | some c' =>
        rw [hc, hc'] at h2
        simp at h2
    | some c =>
      cases hc' : cs'.getLast? with
      | none =>
        rw [hc, hc'] at h2
        simp at h2
      | some c' =>
        rw [hc, hc'] at h2
        simp only [Option.map_some'] at h2
        have he := Option.some.inj h2
        simp only [Option.elim]
        rw [he]
  unfold getIntegrityError
  rw [hlen, hany, hlast, hl]

/-- Reassemble a passing integrity check from its four components. -/
theorem getIntegrityError_none_of (d : NodeData) (cs : List LayoutNode)
    (h1 : cs.length ≠ 1)
    (h2 : ∀ c ∈ cs.dropLast, percBad c.percentage = false)
    (h3 : ∀ c, cs.getLast? = some c → notSentinel c.percentage = false)
    (h4 : ∀ c ∈ cs, getIntegrityError c = none) :
    getIntegrityError (mk d cs) = none := by
  have hA : (cs.dropLast.any fun c => percBad c.percentage) = false := by
    cases hA' : cs.dropLast.any fun c => percBad c.percentage with
    | false => rfl
    | true =>
      obtain ⟨c, hcmem, hcbad⟩ := List.any_eq_true.mp hA'
      rw [h2 c hcmem] at hcbad
      exact Bool.noConfusion hcbad
  have hB : (cs.getLast?.elim false fun c => notSentinel c.percentage) = false := by
    cases hL : cs.getLast? with
    | none => rfl
    | some c =>
      simp only [Option.elim]
      exact h3 c hL
  unfold getIntegrityError
  rw [if_neg h1, hA, hB]
  show integrityErrorList cs = none
  exact (integrityErrorList_none cs).mpr h4

/-- `idxOf?` only returns indices inside the list. -/
theorem idxOf?_lt_length {α : Type} [DecidableEq α] :
    ∀ (l : List α) (a : α) (i : ℕ), idxOf? l a = some i → i < l.length
  | [], _, _, h => Option.noConfusion h
  | b :: bs, a, i, h => by
    unfold idxOf? at h
    split_ifs at h with hb
    · cases h
      simp
    · rw [Option.map_eq_some'] at h
      obtain ⟨j, hj, rfl⟩ := h
      have hlt := idxOf?_lt_length bs a j hj
      simpa using Nat.succ_lt_succ hlt

/-- Erasing a non-last index leaves the last element in place. -/
theorem eraseIdx_getLast? {α : Type} :
    ∀ (l : List α) (i : ℕ), i < l.length → i + 1 ≠ l.length →
      (l.eraseIdx i).getLast? = l.getLast?
  | [], i, h, _ => absurd h (by simp)
  | c :: rest, 0, _, hne => by
    cases rest with
    | nil => exact absurd rfl hne
    | cons r rs =>
      show (r :: rs).getLast? = (c :: r :: rs).getLast?
      exact List.getLast?_cons_cons.symm
  | c :: rest, i + 1, h, hne => by
    have hi : i < rest.length := by simpa using Nat.lt_of_succ_lt_succ h
    have hne' : i + 1 ≠ rest.length := fun he => hne (by simp [he])
    show (c :: rest.eraseIdx i).getLast? = (c :: rest).getLast?
    rw [List.getLast?_cons, List.getLast?_cons,
      eraseIdx_getLast? rest i hi hne']

/-- Erasing strictly inside the `dropLast` prefix commutes with
`dropLast`. -/
theorem dropLast_eraseIdx {α : Type} :
    ∀ (l : List α) (i : ℕ), i + 1 < l.length →
      (l.eraseIdx i).dropLast = l.dropLast.eraseIdx i
  | [], i, h => absurd h (by simp)
  | c :: rest, 0, h => by
    cases rest with
    | nil => exact absurd h (by simp)
    | cons r rs =>
      show (r :: rs).dropLast = ((c :: r :: rs).dropLast).eraseIdx 0
      rw [List.dropLast_cons₂]
      rfl
  | c :: rest, i + 1, h => by
    have hi : i + 1 < rest.length := by simpa using Nat.lt_of_succ_lt_succ h
    cases rest with
    | nil => exact absurd hi (by simp)
    | cons r rs =>
      show (c :: (r :: rs).eraseIdx i).dropLast
        = ((c :: r :: rs).dropLast).eraseIdx (i + 1)
      rw [List.dropLast_cons₂]
      cases he : (r :: rs).eraseIdx i with
      | nil =>
        exfalso
        have hlen := List.length_eraseIdx_of_lt (Nat.lt_of_succ_lt hi)
        rw [he] at hlen
        simp at hlen
        have hi' : i + 1 < rs.length + 1 := by simpa using hi
        omega
      | cons e es =>
        show (c :: e :: es).dropLast = c :: ((r :: rs).dropLast).eraseIdx i
        rw [List.dropLast_cons₂, ← he, dropLast_eraseIdx (r :: rs) i hi]

/-- Every subtree of a member of a list is a member of the combined
subtree list. -/
theorem subtrees_subset_subtreesList :
    ∀ (cs : List LayoutNode) (c : LayoutNode), c ∈ cs →
      ∀ s ∈ subtrees c, s ∈ subtreesList cs
  | [], _, hc, _, _ => absurd hc (by simp)
  | a :: as, c, hc, s, hs => by
    show s ∈ subtrees a ++ subtreesList as
    rcases List.mem_cons.mp hc with rfl | hmem
    · exact List.mem_append_left _ hs
    · exact List.mem_append_right _ (subtrees_subset_subtreesList as c hmem s hs)

/-- Unfolding `deleteSafeB` at the root node itself. -/
theorem deleteSafeB_self (target : LayoutNode) (d : NodeData)
    (cs : List LayoutNode) (h : deleteSafeB target (mk d cs) = true)
    (i : ℕ) (hIdx : idxOf? cs target = some i) :
    cs.length = 2 ∨ i + 1 ≠ cs.length := by
  unfold deleteSafeB at h
  rw [List.all_eq_true] at h
  have hp := h (mk d cs) (by show mk d cs ∈ mk d cs :: subtreesList cs; simp)
  simp only [children_mk] at hp
  rw [hIdx] at hp
  exact of_decide_eq_true hp

/-- `deleteSafeB` is inherited by every child. -/
theorem deleteSafeB_child (target : LayoutNode) (d : NodeData)
    (cs : List LayoutNode) (h : deleteSafeB target (mk d cs) = true)
    (c : LayoutNode) (hc : c ∈ cs) : deleteSafeB target c = true := by
  unfold deleteSafeB at h ⊢
  rw [List.all_eq_true] at h ⊢
  intro s hs
  apply h
  show s ∈ mk d cs :: subtreesList cs
  exact List.mem_cons_of_mem _ (subtrees_subset_subtreesList cs c hc s hs)

end LayoutNode

namespace LayoutNode

/-- A data update that keeps the percentage keeps the percentage of the
whole node. -/
theorem mapAll_percentage (f : NodeData → NodeData)
    (hf : ∀ d, (f d).percentage = d.percentage) :
    ∀ t : LayoutNode, (mapAll f t).percentage = t.percentage
  | mk d _ => hf d

/-- `mapAllList` with a percentage-preserving update keeps the
percentages of the list. -/
theorem mapAllList_map_percentage (f : NodeData → NodeData)
    (hf : ∀ d, (f d).percentage = d.percentage) :
    ∀ cs : List LayoutNode, (mapAllList f cs).map percentage = cs.map percentage
  | [] => rfl
  | c :: rest => by
    simp only [mapAllList, List.map_cons]
    rw [mapAll_percentage f hf c, mapAllList_map_percentage f hf rest]

mutual

/-- `forSelfAndDescendants` with a percentage-preserving update leaves
the integrity verdict unchanged. -/
theorem integrity_mapAll (f : NodeData → NodeData)
    (hf : ∀ d, (f d).percentage = d.percentage) :
    ∀ t : LayoutNode, getIntegrityError (mapAll f t) = getIntegrityError t
  | mk d cs => by
    show getIntegrityError (mk (f d) (mapAllList f cs)) = getIntegrityError (mk d cs)
    exact getIntegrityError_congr (f d) d (mapAllList f cs) cs
      (mapAllList_map_percentage f hf cs) (integrityList_mapAll f hf cs)

theorem integrityList_mapAll (f : NodeData → NodeData)
    (hf : ∀ d, (f d).percentage = d.percentage) :
    ∀ cs : List LayoutNode,
      integrityErrorList (mapAllList f cs) = integrityErrorList cs
  | [] => rfl
  | c :: rest => by
    simp only [mapAllList, integrityErrorList]
    rw [integrity_mapAll f hf c]
    cases getIntegrityError c with
    | none =>
      simp only [Option.orElse, Option.none_orElse]
      exact integrityList_mapAll f hf rest
    | some s => simp only [Option.orElse, Option.some_orElse]

end

/-- `forDescendants` with a percentage-preserving update leaves the
integrity verdict unchanged. -/
theorem integrity_mapDescendants (f : NodeData → NodeData)
    (hf : ∀ d, (f d).percentage = d.percentage) (t : LayoutNode) :
    getIntegrityError (mapDescendants f t) = getIntegrityError t := by
  cases t with
  | mk d cs =>
    show getIntegrityError (mk d (mapAllList f cs)) = getIntegrityError (mk d cs)
    exact getIntegrityError_congr d d (mapAllList f cs) cs
      (mapAllList_map_percentage f hf cs) (integrityList_mapAll f hf cs)

mutual

/-- `calculateRects` only rewrites rectangles: the integrity verdict is
unchanged. -/
theorem integrity_calcNode : ∀ (t : LayoutNode) (x y w h : ℚ) (dopt : Option Rect),
    getIntegrityError (calcNode t x y w h dopt) = getIntegrityError t
  | mk d cs, x, y, w, h, dopt => by
    unfold calcNode
    by_cases hcs : cs.length = 0
    · rw [if_pos hcs]
      exact getIntegrityError_congr _ d cs cs rfl rfl
    · rw [if_neg hcs]
      exact getIntegrityError_congr _ d _ cs
        (calcChildren_percentage cs x y x y w h (Option.getD dopt ⟨x, y, w, h⟩))
        (integrity_calcChildren cs x y x y w h (Option.getD dopt ⟨x, y, w, h⟩))

theorem integrity_calcChildren :
    ∀ (cs : List LayoutNode) (px py x y w h : ℚ) (disp : Rect),
      integrityErrorList (calcChildren cs px py x y w h disp) = integrityErrorList cs
  | [], _, _, _, _, _, _, _ => rfl
  | c :: rest, px, py, x, y, w, h, disp => by
    unfold calcChildren
    by_cases hr : rest.length = 0
    · rw [if_pos hr]
      have hre : rest = [] := List.length_eq_zero.mp hr
      subst hre
      by_cases hcol : c.percentage.isColumnB = true
      · rw [if_pos hcol]
        simp only [integrityErrorList]
        rw [integrity_calcNode c px y (x + w - px) h (some disp)]
      · rw [if_neg hcol]
        simp only [integrityErrorList]
        rw [integrity_calcNode c x py w (y + h - py) (some disp)]
    · rw [if_neg hr]
      by_cases hcol : c.percentage.isColumnB = true
      · rw [if_pos hcol]
        simp only [integrityErrorList]
        rw [integrity_calcNode c px y
          (disp.x + edgeOffset disp.width c.percentage - px) h (some disp)]
        cases getIntegrityError c with
        | some s => simp only [Option.orElse, Option.some_orElse]
        | none =>
          simp only [Option.orElse, Option.none_orElse]
          exact integrity_calcChildren rest
            (disp.x + edgeOffset disp.width c.percentage) py x y w h disp
      · rw [if_neg hcol]
        simp only [integrityErrorList]
        rw [integrity_calcNode c x py w
          (disp.y + edgeOffset disp.height c.percentage - py) (some disp)]
        cases getIntegrityError c with
        | some s => simp only [Option.orElse, Option.some_orElse]
        | none =>
          simp only [Option.orElse, Option.none_orElse]
          exact integrity_calcChildren rest
            px (disp.y + edgeOffset disp.height c.percentage) x y w h disp

end

/-- The no-argument recomputation keeps the integrity verdict. -/
theorem integrity_recalcRects (t : LayoutNode) :
    getIntegrityError (recalcRects t) = getIntegrityError t :=
  integrity_calcNode t t.rect.x t.rect.y t.rect.width t.rect.height none

/-- `modifyIdx` with a percentage-preserving node update keeps the
percentages of the list. -/
theorem modifyIdx_map_percentage (g : LayoutNode → LayoutNode)
    (hg : ∀ c, (g c).percentage = c.percentage) :
    ∀ (i : ℕ) (cs : List LayoutNode),
      (modifyIdx g i cs).map percentage = cs.map percentage
  | 0, [] => rfl
  | _ + 1, [] => rfl
  | 0, c :: rest => by
    simp only [modifyIdx, List.map_cons, hg c]
  | i + 1, c :: rest => by
    simp only [modifyIdx, List.map_cons]
    rw [modifyIdx_map_percentage g hg i rest]

/-- `modifyIdx` with an integrity-preserving node update keeps the
integrity verdict of the list. -/
theorem integrityList_modifyIdx (g : LayoutNode → LayoutNode)
    (hg : ∀ c, getIntegrityError (g c) = getIntegrityError c) :
    ∀ (i : ℕ) (cs : List LayoutNode),
      integrityErrorList (modifyIdx g i cs) = integrityErrorList cs
  | 0, [] => rfl
  | _ + 1, [] => rfl
  | 0, c :: rest => by
    simp only [modifyIdx, integrityErrorList]
    rw [hg c]
  | i + 1, c :: rest => by
    simp only [modifyIdx, integrityErrorList]
    cases getIntegrityError c with
    | some s => simp only [Option.orElse, Option.some_orElse]
    | none =>
      simp only [Option.orElse, Option.none_orElse]
      exact integrityList_modifyIdx g hg i rest

/-- A percentage-preserving data update at a path keeps the node's
percentage. -/
theorem modifyData_percentage (f : NodeData → NodeData)
    (hf : ∀ d, (f d).percentage = d.percentage) :
    ∀ (p : List ℕ) (t : LayoutNode), (modifyData f p t).percentage = t.percentage
  | [], mk d _ => hf d
  | _ :: _, mk _ _ => rfl

/-- A percentage-preserving data update at a path keeps the integrity
verdict. -/
theorem integrity_modifyData (f : NodeData → NodeData)
    (hf : ∀ d, (f d).percentage = d.percentage) :
    ∀ (p : List ℕ) (t : LayoutNode),
      getIntegrityError (modifyData f p t) = getIntegrityError t
  | [], mk d cs => getIntegrityError_congr (f d) d cs cs rfl rfl
  | i :: rest, mk d cs => by
    show getIntegrityError (mk d (modifyIdx (modifyData f rest) i cs))
      = getIntegrityError (mk d cs)
    exact getIntegrityError_congr d d _ cs
      (modifyIdx_map_percentage _ (fun c => modifyData_percentage f hf rest c) i cs)
      (integrityList_modifyIdx _ (fun c => integrity_modifyData f hf rest c) i cs)

end LayoutNode

/-- The margin paging handler never changes the integrity verdict. -/
theorem margins_onKeyPress_integrity (op : MarginsOperation) (x y : ℚ)
    (state key : ℕ) :
    (MarginsOperation.onKeyPress op x y state key).1.tree.getIntegrityError
      = op.tree.getIntegrityError := by
  unfold MarginsOperation.onKeyPress
  split_ifs
  · refine (LayoutNode.integrity_recalcRects _).trans
      (LayoutNode.integrity_mapDescendants _ ?_ op.tree)
    exact fun d => rfl
  · refine (LayoutNode.integrity_recalcRects _).trans
      (LayoutNode.integrity_mapDescendants _ ?_ op.tree)
    exact fun d => rfl
  · rfl

/-- Cancelling the snapping overlay never changes the integrity
verdict. -/
theorem snapping_cancel_integrity (op : SnappingOperation) :
    (SnappingOperation.cancel op).1.tree.getIntegrityError
      = op.tree.getIntegrityError := by
  unfold SnappingOperation.cancel
  split_ifs
  · refine LayoutNode.integrity_mapAll _ ?_ op.tree
    exact fun d => rfl
  · rfl

/-- The snapping motion handler never changes the integrity verdict. -/
theorem snapping_onMotion_integrity (op : SnappingOperation) (x y : ℚ)
    (state : ℕ) :
    (SnappingOperation.onMotion op x y state).1.tree.getIntegrityError
      = op.tree.getIntegrityError := by
  simp only [SnappingOperation.onMotion]
  split_ifs
  · cases hp : LayoutNode.findNodeAtPositionPath op.tree x y with
    | none => exact snapping_cancel_integrity op
    | some p =>
      refine (LayoutNode.integrity_modifyData _ ?_ p _).trans
        (LayoutNode.integrity_mapAll _ ?_ op.tree)
      · exact fun d => rfl
      · exact fun d => rfl
  · exact snapping_cancel_integrity op

namespace LayoutNode

/-- `delete` never changes the percentage of the node it is called on. -/
theorem delete_percentage (t target : LayoutNode) :
    ((delete t target).2).percentage = t.percentage := by
  cases t with
  | mk d cs =>
    unfold delete
    cases idxOf? cs target with
    | some i =>
      split_ifs
      · rfl
      · rfl
    | none => rfl

/-- `delete` searching through a list keeps the percentages of the
list. -/
theorem deleteList_map_percentage :
    ∀ (cs : List LayoutNode) (target : LayoutNode),
      ((deleteList cs target).2).map percentage = cs.map percentage
  | [], _ => rfl
  | c :: rest, target => by
    simp only [deleteList]
    by_cases h : (delete c target).1 = true
    · rw [if_pos h]
      simp only [List.map_cons]
      rw [delete_percentage c target]
    · rw [if_neg h]
      simp only [List.map_cons]
      rw [deleteList_map_percentage rest target]

mutual

/-- Under the `deleteSafeB` condition, `delete` preserves a passing
integrity check. -/
theorem delete_integrity : ∀ (t target : LayoutNode),
    deleteSafeB target t = true → getIntegrityError t = none →
    getIntegrityError (delete t target).2 = none
  | mk d cs, target, hsafe, hint => by
    obtain ⟨h1, h2, h3, h4⟩ := getIntegrityError_none d cs hint
    unfold delete
    cases hIdx : idxOf? cs target with
    | some i =>
      show (if cs.length = 2 then (true, mk d [])
        else (true, mk d (cs.eraseIdx i))).2.getIntegrityError = none
      by_cases h2len : cs.length = 2
      · rw [if_pos h2len]
        show getIntegrityError (mk d []) = none
        rfl
      · rw [if_neg h2len]
        show getIntegrityError (mk d (cs.eraseIdx i)) = none
        have hi : i < cs.length := idxOf?_lt_length cs target i hIdx
        have hne : i + 1 ≠ cs.length :=
          (deleteSafeB_self target d cs hsafe i hIdx).resolve_left h2len
        have hlt : i + 1 < cs.length := Nat.lt_of_le_of_ne hi hne
        apply getIntegrityError_none_of
        · rw [List.length_eraseIdx_of_lt hi]
          omega
        · intro c hc
          rw [dropLast_eraseIdx cs i hlt] at hc
          exact h2 c ((List.eraseIdx_sublist cs.dropLast i).subset hc)
        · intro c hc
          rw [eraseIdx_getLast? cs i hi hne] at hc
          exact h3 c hc
        · intro c hc
          exact h4 c ((List.eraseIdx_sublist cs i).subset hc)
    | none =>
      show getIntegrityError (mk d (deleteList cs target).2) = none
      have hmap := deleteList_map_percentage cs target
      apply getIntegrityError_none_of
      · have hlen := congrArg List.length hmap
        simp only [List.length_map] at hlen
        rw [hlen]
        exact h1
      · intro c hc
        have hdl : ((deleteList cs target).2).dropLast.map percentage
            = cs.dropLast.map percentage := by
          rw [List.map_dropLast, List.map_dropLast, hmap]
        have hmem : c.percentage ∈ cs.dropLast.map percentage := by
          rw [← hdl]
          exact List.mem_map_of_mem percentage hc
        obtain ⟨c', hc', he⟩ := List.mem_map.mp hmem
        rw [← he]
        exact h2 c' hc'
      · intro c hc
        have hgl : ((deleteList cs target).2).getLast?.map percentage
            = cs.getLast?.map percentage := by
          rw [← List.getLast?_map, ← List.getLast?_map, hmap]
        rw [hc] at hgl
        cases hL : cs.getLast? with
        | none =>
          rw [hL] at hgl
          simp at hgl
        | some c' =>
          rw [hL] at hgl
          simp only [Option.map_some'] at hgl
          have he := Option.some.inj hgl
          rw [he]
          exact h3 c' hL
      · exact deleteList_integrity cs target
          (fun c hc => deleteSafeB_child target d cs hsafe c hc) h4

theorem deleteList_integrity : ∀ (cs : List LayoutNode) (target : LayoutNode),
    (∀ c ∈ cs, deleteSafeB target c = true) →
    (∀ c ∈ cs, getIntegrityError c = none) →
    ∀ c ∈ (deleteList cs target).2, getIntegrityError c = none
  | [], target, _, _ => by
    intro c hc
    simp [deleteList] at hc
  | c :: rest, target, hsafe, hint => by
    simp only [deleteList]
    by_cases h : (delete c target).1 = true
    · rw [if_pos h]
      intro c' hc'
      rcases List.mem_cons.mp hc' with rfl | hmem
      · exact delete_integrity c target (hsafe c (by simp)) (hint c (by simp))
      · exact hint c' (List.mem_cons_of_mem c hmem)
    · rw [if_neg h]
      intro c' hc'
      rcases List.mem_cons.mp hc' with rfl | hmem
      · exact hint c' (by simp)
      · exact deleteList_integrity rest target
          (fun x hx => hsafe x (List.mem_cons_of_mem c hx))
          (fun x hx => hint x (List.mem_cons_of_mem c hx)) c' hmem

end

end LayoutNode

namespace LayoutNode

/-- `idxOf?` returns the index of an element equal to the target. -/
theorem idxOf?_get? {α : Type} [DecidableEq α] :
    ∀ (l : List α) (a : α) (i : ℕ), idxOf? l a = some i → l.get? i = some a
  | [], _, _, h => Option.noConfusion h
  | b :: bs, a, i, h => by
    unfold idxOf? at h
    split_ifs at h with hb
    · injection h with h0
      subst h0
      simpa using hb
    · rw [Option.map_eq_some'] at h
      obtain ⟨j, hj, rfl⟩ := h
      simpa using idxOf?_get? bs a j hj

mutual

/-- A passing integrity check passes on every subtree. -/
theorem integrity_subtrees : ∀ (t : LayoutNode), getIntegrityError t = none →
    ∀ s ∈ subtrees t, getIntegrityError s = none
  | mk d cs, hint, s, hs => by
    obtain ⟨h1, h2, h3, h4⟩ := getIntegrityError_none d cs hint
    have hs' : s ∈ mk d cs :: subtreesList cs := hs
    rcases List.mem_cons.mp hs' with rfl | hmem
    · exact hint
    · exact integrityList_subtrees cs h4 s hmem

theorem integrityList_subtrees : ∀ (cs : List LayoutNode),
    (∀ c ∈ cs, getIntegrityError c = none) →
    ∀ s ∈ subtreesList cs, getIntegrityError s = none
  | [], _, s, hs => absurd hs (by intro h; simp [subtreesList] at h)
  | c :: rest, h4, s, hs => by
    have hs' : s ∈ subtrees c ++ subtreesList rest := hs
    rcases List.mem_append.mp hs' with h | h
    · exact integrity_subtrees c (h4 c (by simp)) s h
    · exact integrityList_subtrees rest (fun x hx => h4 x (List.mem_cons_of_mem c hx)) s h

end

/-- In an integrity-passing tree a node with a non-sentinel percentage
is never the last child of any subtree (last children carry a sentinel),
so deleting it always satisfies the safety condition. -/
theorem deleteSafeB_of_notSentinel (t target : LayoutNode)
    (hint : getIntegrityError t = none)
    (hns : notSentinel target.percentage = true) :
    deleteSafeB target t = true := by
  unfold deleteSafeB
  rw [List.all_eq_true]
  intro s hs
  have hsint := integrity_subtrees t hint s hs
  cases s with
  | mk d cs =>
    obtain ⟨h1, h2, h3, h4⟩ := getIntegrityError_none d cs hsint
    simp only [children_mk]
    cases hIdx : idxOf? cs target with
    | none => rfl
    | some i =>
      refine decide_eq_true (Or.inr fun he => ?_)
      have hget := idxOf?_get? cs target i hIdx
      have hlast : cs.getLast? = some target := by
        rw [List.getLast?_eq_get?, ← hget]
        congr 1
        omega
      have hcontra := h3 target hlast
      rw [hns] at hcontra
      exact Bool.noConfusion hcontra

/-- Deleting any node whose percentage is not a sentinel preserves a
passing integrity check. -/
theorem delete_notSentinel_integrity (t target : LayoutNode)
    (hint : getIntegrityError t = none)
    (hns : notSentinel target.percentage = true) :
    getIntegrityError (delete t target).2 = none :=
  delete_integrity t target (deleteSafeB_of_notSentinel t target hint hns) hint

end LayoutNode

/-- C1: corrected version.  Deserialization only hands out trees that
pass the integrity check; the margin-paging, snapping-motion and
snapping-cancel handlers leave the integrity verdict of the tree
unchanged (they only rewrite margins, highlight flags and geometry); the
preset handler never modifies the tree.  The resize and preview-split
handlers genuinely do not preserve the invariant: the recorded
counterexample exhibits an integrity-breaking secondary-button divider
delete, an integrity-breaking resize motion and an integrity-breaking
preview motion.  For `delete`, two sufficient conditions: deletion
preserves a passing integrity check whenever the deleted node is nowhere
the last child of a parent with three or more children (`deleteSafeB`),
and in particular whenever its percentage is not a sentinel. -/
theorem c1_integrity_amended :
    (∀ (j : LayoutNode.JsonNode) (t : LayoutNode), loadLayout j = some t →
      t.getIntegrityError = none) ∧
    (∀ (op : MarginsOperation) (x y : ℚ) (state key : ℕ),
      (MarginsOperation.onKeyPress op x y state key).1.tree.getIntegrityError
        = op.tree.getIntegrityError) ∧
    (∀ (op : SnappingOperation) (x y : ℚ) (state : ℕ),
      (SnappingOperation.onMotion op x y state).1.tree.getIntegrityError
        = op.tree.getIntegrityError) ∧
    (∀ op : SnappingOperation,
      (SnappingOperation.cancel op).1.tree.getIntegrityError
        = op.tree.getIntegrityError) ∧
    (∀ t target : LayoutNode, LayoutNode.deleteSafeB target t = true →
      t.getIntegrityError = none →
      ((t.delete target).2).getIntegrityError = none) ∧
    (∀ t target : LayoutNode, t.getIntegrityError = none →
      LayoutNode.notSentinel target.percentage = true →
      ((t.delete target).2).getIntegrityError = none) := by
  refine ⟨?_, margins_onKeyPress_integrity, snapping_onMotion_integrity,
    snapping_cancel_integrity, LayoutNode.delete_integrity,
    LayoutNode.delete_notSentinel_integrity⟩
  intro j t h
  simp only [loadLayout] at h
  split_ifs at h with hI
  injection h with h2
  rw [← h2]
  exact hI

/-- Witness for C1: deleting the first leaf of the seeded default 2x2
layout satisfies the safety condition, and the integrity check still
passes on the resulting tree. -/
theorem c1_integrity_amended_witness :
    LayoutNode.deleteSafeB default2x2FirstLeaf default2x2Rects = true ∧
    LayoutNode.getIntegrityError default2x2Rects = none ∧
    LayoutNode.notSentinel default2x2FirstLeaf.percentage = true ∧
    LayoutNode.getIntegrityError
      (LayoutNode.delete default2x2Rects default2x2FirstLeaf).2 = none :=
  ⟨by decide, by decide, by decide,
    c1_integrity_amended.2.2.2.2.1 default2x2Rects default2x2FirstLeaf
      (by decide) (by decide)⟩

/-- C2 fails as stated: `undefRowTree` satisfies the structural
invariants (an `undefined` percentage passes every JS range comparison),
yet the source's arithmetic gives its children `NaN` rectangle
coordinates — the first child's height and the second child's `y` and
height are `NaN` — and the JS equality
`second.y == first.y + first.height` required for tiling is false,
`NaN` comparing false with everything. -/
theorem c2_undefined_percentage_not_tiled :
    LayoutNode.getIntegrityError undefRowTree = none ∧
    LayoutNode.percAt undefRowTree [0] = Perc.undef ∧
    undefRowTreeJ.children.map JTree.rect
      = [⟨JNum.num 0, JNum.num 0, JNum.num 1000, JNum.nan⟩,
         ⟨JNum.num 0, JNum.nan, JNum.num 1000, JNum.nan⟩] ∧
    JNum.eqB ((undefRowTreeJ.children.getLast?.map fun c => c.rect.y).getD JNum.nan)
      (JNum.add ((undefRowTreeJ.children.head?.map fun c => c.rect.y).getD JNum.nan)
        ((undefRowTreeJ.children.head?.map fun c => c.rect.height).getD JNum.nan))
      = false := by
  decide

/-- `finiteDropLastB` constrains the root's own non-last children. -/
theorem finiteDropLastB_self (d : NodeData) (cs : List LayoutNode)
    (h : finiteDropLastB (LayoutNode.mk d cs) = true) :
    ∀ c ∈ cs.dropLast, c.percentage.isFinB = true := by
  unfold finiteDropLastB at h
  rw [List.all_eq_true] at h
  have hp := h (LayoutNode.mk d cs)
    (by
      show LayoutNode.mk d cs ∈ LayoutNode.mk d cs :: LayoutNode.subtreesList cs
      simp)
  simp only [LayoutNode.children_mk] at hp
  rw [List.all_eq_true] at hp
  exact hp

/-- `finiteDropLastB` is inherited by every child. -/
theorem finiteDropLastB_child (d : NodeData) (cs : List LayoutNode)
    (h : finiteDropLastB (LayoutNode.mk d cs) = true)
    (c : LayoutNode) (hc : c ∈ cs) : finiteDropLastB c = true := by
  unfold finiteDropLastB at h ⊢
  rw [List.all_eq_true] at h ⊢
  intro s hs
  apply h
  show s ∈ LayoutNode.mk d cs :: LayoutNode.subtreesList cs
  exact List.mem_cons_of_mem _ (LayoutNode.subtrees_subset_subtreesList cs c hc s hs)

/-- The display-rectangle default commutes with the embedding. -/
theorem rectToJ_getD (dopt : Option Rect) (r : Rect) :
    (dopt.map rectToJ).getD (rectToJ r) = rectToJ (dopt.getD r) := by
  cases dopt with
  | none => rfl
  | some d => rfl

mutual

/-- On finite inputs, when every non-last child percentage in the tree
is finite, the JS-number geometry computation coincides with the
rational model — so under that hypothesis the rational model is a
faithful account of the source. -/
theorem calcNodeJ_agree : ∀ (t : LayoutNode) (x y w h : ℚ) (dopt : Option Rect),
    finiteDropLastB t = true →
    calcNodeJ t (JNum.num x) (JNum.num y) (JNum.num w) (JNum.num h) (dopt.map rectToJ)
      = toJTree (LayoutNode.calcNode t x y w h dopt)
  | LayoutNode.mk d cs, x, y, w, h, dopt, hfin => by
    simp only [calcNodeJ, LayoutNode.calcNode]
    by_cases hcs : cs.length = 0
    · rw [if_pos hcs, if_pos hcs]
      have hnil : cs = [] := List.length_eq_zero.mp hcs
      subst hnil
      rfl
    · rw [if_neg hcs, if_neg hcs]
      simp only [toJTree]
      congr 1
      rw [show (⟨JNum.num x, JNum.num y, JNum.num w, JNum.num h⟩ : RectJ)
          = rectToJ ⟨x, y, w, h⟩ from rfl, rectToJ_getD]
      exact calcChildrenJ_agree cs x y x y w h (dopt.getD ⟨x, y, w, h⟩)
        (finiteDropLastB_self d cs hfin)
        (fun c hc => finiteDropLastB_child d cs hfin c hc)

theorem calcChildrenJ_agree :
    ∀ (cs : List LayoutNode) (px py x y w h : ℚ) (disp : Rect),
      (∀ c ∈ cs.dropLast, c.percentage.isFinB = true) →
      (∀ c ∈ cs, finiteDropLastB c = true) →
      calcChildrenJ cs (JNum.num px) (JNum.num py) (JNum.num x) (JNum.num y)
          (JNum.num w) (JNum.num h) (rectToJ disp)
        = toJTreeList (LayoutNode.calcChildren cs px py x y w h disp)
  | [], _, _, _, _, _, _, _, _, _ => rfl
  | c :: rest, px, py, x, y, w, h, disp, hdrop, hall => by
    simp only [calcChildrenJ, LayoutNode.calcChildren]
    by_cases hr : rest.length = 0
    · rw [if_pos hr, if_pos hr]
      by_cases hcol : c.percentage.isColumnB = true
      · rw [if_pos hcol, if_pos hcol]
        simp only [toJTreeList]
        exact congrArg (fun z => [z])
          (calcNodeJ_agree c px y (x + w - px) h (some disp) (hall c (by simp)))
      · rw [if_neg hcol, if_neg hcol]
        simp only [toJTreeList]
        exact congrArg (fun z => [z])
          (calcNodeJ_agree c x py w (y + h - py) (some disp) (hall c (by simp)))
    · rw [if_neg hr, if_neg hr]
      have hrne : rest ≠ [] := fun h0 => hr (by simp [h0])
      have hcfin : c.percentage.isFinB = true := by
        apply hdrop
        cases rest with
        | nil => exact absurd rfl hrne
        | cons r rs =>
          rw [List.dropLast_cons₂]
          exact List.mem_cons_self c _
      obtain ⟨q, hq⟩ : ∃ q, c.percentage = Perc.fin q := by
        cases hP : c.percentage with
        | fin q => exact ⟨q, rfl⟩
        | pinf => rw [hP] at hcfin; exact Bool.noConfusion hcfin
        | ninf => rw [hP] at hcfin; exact Bool.noConfusion hcfin
        | undef => rw [hP] at hcfin; exact Bool.noConfusion hcfin
      have hdrop' : ∀ c' ∈ rest.dropLast, c'.percentage.isFinB = true := by
        intro c' hc'
        apply hdrop
        cases rest with
        | nil => exact absurd rfl hrne
        | cons r rs =>
          rw [List.dropLast_cons₂]
          exact List.mem_cons_of_mem c hc'
      have hall' : ∀ c' ∈ rest, finiteDropLastB c' = true :=
        fun c' hc' => hall c' (List.mem_cons_of_mem c hc')
      by_cases hcol : c.percentage.isColumnB = true
      · rw [if_pos hcol, if_pos hcol]
        simp only [toJTreeList]
        rw [hq]
        congr 1
        · exact calcNodeJ_agree c px y
            (disp.x + LayoutNode.edgeOffset disp.width (Perc.fin q) - px) h (some disp)
            (hall c (by simp))
        · exact calcChildrenJ_agree rest
            (disp.x + LayoutNode.edgeOffset disp.width (Perc.fin q)) py x y w h disp
            hdrop' hall'
      · rw [if_neg hcol, if_neg hcol]
        simp only [toJTreeList]
        rw [hq]
        congr 1
        · exact calcNodeJ_agree c x py w
            (disp.y + LayoutNode.edgeOffset disp.height (Perc.fin q) - py) (some disp)
            (hall c (by simp))
        · exact calcChildrenJ_agree rest
            px (disp.y + LayoutNode.edgeOffset disp.height (Perc.fin q)) x y w h disp
            hdrop' hall'

end

/-- C2: corrected version.  When every non-last child percentage in the
tree is a finite number (`finiteDropLastB` — an `undefined` percentage
passes the integrity check but poisons the source's arithmetic with
`NaN`, see the counterexample), the JS-number geometry computation
coincides with the rational model, and in that model every internal node
of the computed tree is exactly tiled by its children along the
partition axis: the first child's span starts at the node's near edge,
each child's span starts where the previous one ends, the last child's
span ends at the node's far edge, and in the other dimension every
child's extent equals the node's. -/
theorem c2_children_tile_amended (t : LayoutNode) (x y w h : ℚ)
    (hInt : t.getIntegrityError = none)
    (hfin : finiteDropLastB t = true) :
    calcNodeJ t (JNum.num x) (JNum.num y) (JNum.num w) (JNum.num h) none
      = toJTree (LayoutNode.calculateRects t x y w h) ∧
    ∀ n ∈ LayoutNode.subtrees (LayoutNode.calculateRects t x y w h),
      n.children ≠ [] →
      ((∀ c ∈ n.children, c.axis = AxisX) → LayoutNode.tilesX n) ∧
      ((∀ c ∈ n.children, c.axis = AxisY) → LayoutNode.tilesY n) :=
  ⟨calcNodeJ_agree t x y w h none hfin,
    fun n hn hne => LayoutNode.calc_tiles_node t x y w h none n hn hne⟩

/-- Witness for C2: the seeded default layout satisfies both hypotheses,
and the root of the computed tree is tiled by its two column children. -/
theorem c2_children_tile_amended_witness :
    LayoutNode.getIntegrityError LayoutOf2x2 = none ∧
    finiteDropLastB LayoutOf2x2 = true ∧
    LayoutNode.tilesX default2x2Rects :=
  ⟨by decide, by decide,
    ((c2_children_tile_amended LayoutOf2x2 0 0 1000 800 (by decide) (by decide)).2
      default2x2Rects (by decide) (by decide)).1 (by decide)⟩

end FancyTiles
